import Mathlib

/-!
# go-translation-api: the synchronisation engine and its API status mapping

A shallow embedding of `datastore/datastore.go` (identifier resolver, upsert
step, `ImportDomain`, `ImportDir`) and of the error handling of
`transserver/main.go`.

The relational store is a record of four tables (lists of rows in storage
order).  Every SQL statement of the source is one function on that record.
A statement can fail for reasons outside the program (lock, I/O, constraint):
the store carries a schedule `faults`, one entry per statement still to come;
`some c` makes the next statement fail with the store error `c` and leaves the
tables untouched, `none` (or an exhausted schedule) lets it run.  The
statements do not check the constraints of the schema themselves: a violation
is one of the failures a schedule can hold, and the key constraints are
predicates on the store (`DB.TranslationIds`, `DB.TranslationUnique`, ...).

Go's `(value, err)` results are pairs `(value, Option Error)`; `nil` is `none`.
The package-level timing counters and the `fmt.Printf` calls of the source have
no effect on any result and are left out.
-/

namespace TranslationApi

/-! ## Errors -/

/-- Go `error` values that the program can see. `ErrNoRows` is `sql.ErrNoRows`,
`New msg` is `errors.New(msg)`, `Store c` is any other failure reported by the
database driver. -/
inductive Error where
  | ErrNoRows : Error
  | New (msg : String) : Error
  | Store (code : Nat) : Error
deriving DecidableEq, Repr

/-! ## Rows and store -/

/-- Row of table `language`; also `trans.Language` (fields `Id`, `Name`, `Code`). -/
structure Language where
  Id : Int
  Name : String
  Code : String
deriving DecidableEq, Repr

/-- Row of table `domain`. -/
structure DomainRow where
  id : Int
  name : String
deriving DecidableEq, Repr

/-- Row of table `string`. -/
structure StringRow where
  id : Int
  name : String
  domain_id : Int
deriving DecidableEq, Repr

/-- Row of table `translation`. -/
structure TranslationRow where
  id : Int
  string_id : Int
  language_id : Int
  content : String
deriving DecidableEq, Repr

/-- The database behind `ds.db`. -/
structure DB where
  language : List Language
  domain : List DomainRow
  string : List StringRow
  translation : List TranslationRow
  faults : List (Option Nat)
deriving DecidableEq, Repr

/-- Start of a statement: take the next entry of the failure schedule. -/
def DB.next (db : DB) : Option Nat × DB :=
  match db.faults with
  | [] => (none, db)
  | f :: rest => (f, { db with faults := rest })

/-- Largest element of a non-empty list, seeded with its head. -/
def maxFrom (x : Int) (xs : List Int) : Int :=
  xs.foldl max x

/-- Row id SQLite gives to an inserted row: 1 in an empty table, otherwise one
more than the largest id in use. This is what `result.LastInsertId()` reports. -/
def nextRowId : List Int → Int
  | [] => 1
  | x :: xs => maxFrom x xs + 1

/-- Statement `SELECT id, name, code FROM language WHERE code=?` read with `Get`. -/
def DB.selectLanguage (db : DB) (code : String) : (Language × Option Error) × DB :=
  match db.next with
  | (some c, db1) => ((⟨0, "", ""⟩, some (Error.Store c)), db1)
  | (none, db1) =>
    match db1.language.find? (fun l => l.Code = code) with
    | some l => ((l, none), db1)
    | none => ((⟨0, "", ""⟩, some Error.ErrNoRows), db1)

/-- Statement `SELECT id FROM domain WHERE name=?` read with `QueryRow`/`Scan`. -/
def DB.selectDomainId (db : DB) (name : String) : (Int × Option Error) × DB :=
  match db.next with
  | (some c, db1) => ((0, some (Error.Store c)), db1)
  | (none, db1) =>
    match db1.domain.find? (fun r => r.name = name) with
    | some r => ((r.id, none), db1)
    | none => ((0, some Error.ErrNoRows), db1)

/-- Statement `INSERT INTO domain (name) VALUES (?)`; the value is the new row id
(`result.LastInsertId()`, which the SQLite driver answers without error). -/
def DB.insertDomain (db : DB) (name : String) : (Int × Option Error) × DB :=
  match db.next with
  | (some c, db1) => ((0, some (Error.Store c)), db1)
  | (none, db1) =>
    let id := nextRowId (db1.domain.map (fun r => r.id))
    ((id, none), { db1 with domain := db1.domain ++ [⟨id, name⟩] })

/-- Result rows of `string INNER JOIN translation ON string.id = translation.string_id
WHERE name=? AND language_id=? AND domain_id=?`, string rows outermost. -/
def DB.joinTranslation (db : DB) (name : String) (languageId domainId : Int) :
    List TranslationRow :=
  (db.string.filter (fun s => s.name = name ∧ s.domain_id = domainId)).flatMap
    (fun s => db.translation.filter
      (fun t => t.string_id = s.id ∧ t.language_id = languageId))

/-- Statement `SELECT translation.id FROM string INNER JOIN translation ...`
read with `QueryRow`/`Scan`: the first result row, or `ErrNoRows`. -/
def DB.selectTranslationId (db : DB) (name : String) (languageId domainId : Int) :
    (Int × Option Error) × DB :=
  match db.next with
  | (some c, db1) => ((0, some (Error.Store c)), db1)
  | (none, db1) =>
    match db1.joinTranslation name languageId domainId with
    | r :: _ => ((r.id, none), db1)
    | [] => ((0, some Error.ErrNoRows), db1)

/-- Statement `SELECT id FROM string WHERE name = ? AND domain_id = ?`. -/
def DB.selectStringId (db : DB) (name : String) (domainId : Int) :
    (Int × Option Error) × DB :=
  match db.next with
  | (some c, db1) => ((0, some (Error.Store c)), db1)
  | (none, db1) =>
    match db1.string.find? (fun s => s.name = name ∧ s.domain_id = domainId) with
    | some s => ((s.id, none), db1)
    | none => ((0, some Error.ErrNoRows), db1)

/-- Statement `INSERT INTO string (name, domain_id) VALUES (?, ?)`. -/
def DB.insertString (db : DB) (name : String) (domainId : Int) :
    (Int × Option Error) × DB :=
  match db.next with
  | (some c, db1) => ((0, some (Error.Store c)), db1)
  | (none, db1) =>
    let id := nextRowId (db1.string.map (fun r => r.id))
    ((id, none), { db1 with string := db1.string ++ [⟨id, name, domainId⟩] })

/-- Statement `INSERT INTO translation (language_id, content, string_id) VALUES (?, ?, ?)`. -/
def DB.insertTranslation (db : DB) (languageId : Int) (content : String) (stringId : Int) :
    Option Error × DB :=
  match db.next with
  | (some c, db1) => (some (Error.Store c), db1)
  | (none, db1) =>
    let id := nextRowId (db1.translation.map (fun r => r.id))
    (none, { db1 with translation := db1.translation ++ [⟨id, stringId, languageId, content⟩] })

/-- Statement `UPDATE translation SET language_id=?, content=?, string_id=? WHERE id=?`. -/
def DB.updateTranslation (db : DB) (languageId : Int) (content : String) (stringId id : Int) :
    Option Error × DB :=
  match db.next with
  | (some c, db1) => (some (Error.Store c), db1)
  | (none, db1) =>
    let rows := db1.translation.map
      (fun r => if r.id = id then ⟨r.id, stringId, languageId, content⟩ else r)
    (none, { db1 with translation := rows })

/-! ## The DataStore -/

/-- Key of the string cache: `StringKey{DomainId, Name}`. -/
structure StringKey where
  DomainId : Int
  Name : String
deriving DecidableEq, Repr

/-- The `DataStore`: the database handle and the two Go maps. A map is an
association list; `m[k] = v` puts `(k, v)` in front and a read takes the first
entry for the key. -/
structure DataStore where
  db : DB
  domainCache : List (String × Int)
  stringCache : List (StringKey × Int)
deriving DecidableEq, Repr

/-- The value `trans.Translation` as `ImportDomain` uses it. -/
structure Translation where
  Id : Int
  Name : String
  Content : String
  Language : Language
deriving DecidableEq, Repr

/-- The value behind the interface `trans.Domain`: `Name()`, `Language()` (a
language code) and `Translations()`. -/
structure Domain where
  Name : String
  Language : String
  Translations : List Translation
deriving DecidableEq, Repr

/-- Constructor `New`, after its three PRAGMA statements succeeded: both caches empty. -/
def DataStore.New (db : DB) : DataStore :=
  { db := db, domainCache := [], stringCache := [] }

/-- Text of `fmt.Sprintf("Language '%v' does not exist in database", code)`. -/
def languageMissing (code : String) : String :=
  "Language \x27" ++ code ++ "\x27 does not exist in database"

/-- Method `getLanguage`. -/
def getLanguage (ds : DataStore) (code : String) : (Language × Option Error) × DataStore :=
  match ds.db.selectLanguage code with
  | ((l, some e), db1) =>
    if e = Error.ErrNoRows then
      ((l, some (Error.New (languageMissing code))), { ds with db := db1 })
    else
      ((l, some e), { ds with db := db1 })
  | ((l, none), db1) => ((l, none), { ds with db := db1 })

/-- Method `getDomainId`. -/
def getDomainId (ds : DataStore) (name : String) : (Int × Option Error) × DataStore :=
  match ds.domainCache.lookup name with
  | some id => ((id, none), ds)
  | none =>
    match ds.db.selectDomainId name with
    | ((_, some e), db1) => ((0, some e), { ds with db := db1 })
    | ((id, none), db1) =>
      ((id, none), { ds with db := db1, domainCache := (name, id) :: ds.domainCache })

/-- Method `createDomain`. On a failed INSERT the source returns `0, nil`. -/
def createDomain (ds : DataStore) (name : String) : (Int × Option Error) × DataStore :=
  match ds.db.insertDomain name with
  | ((_, some _), db1) => ((0, none), { ds with db := db1 })
  | ((id, none), db1) => ((id, none), { ds with db := db1 })

/-- Method `createOrGetDomain`. -/
def createOrGetDomain (ds : DataStore) (name : String) : (Int × Option Error) × DataStore :=
  match getDomainId ds name with
  | ((id, err), ds1) =>
    if err = some Error.ErrNoRows then createDomain ds1 name
    else ((id, err), ds1)

/-- Method `getTranslationId`; reads `t.Name` and `t.Language.Id`. -/
def getTranslationId (ds : DataStore) (t : Translation) (domainId : Int) :
    (Int × Option Error) × DataStore :=
  match ds.db.selectTranslationId t.Name t.Language.Id domainId with
  | ((_, some e), db1) => ((0, some e), { ds with db := db1 })
  | ((id, none), db1) => ((id, none), { ds with db := db1 })

/-- Method `getStringId`. -/
def getStringId (ds : DataStore) (name : String) (domainId : Int) :
    (Int × Option Error) × DataStore :=
  match ds.db.selectStringId name domainId with
  | ((_, some e), db1) => ((0, some e), { ds with db := db1 })
  | ((id, none), db1) => ((id, none), { ds with db := db1 })

/-- Method `createString`. -/
def createString (ds : DataStore) (name : String) (domainId : Int) :
    (Int × Option Error) × DataStore :=
  match ds.db.insertString name domainId with
  | ((_, some e), db1) => ((0, some e), { ds with db := db1 })
  | ((id, none), db1) => ((id, none), { ds with db := db1 })

/-- Method `createOrGetString`. -/
def createOrGetString (ds : DataStore) (name : String) (domainId : Int) :
    (Int × Option Error) × DataStore :=
  match getStringId ds name domainId with
  | ((id, err), ds1) =>
    if err = some Error.ErrNoRows then createString ds1 name domainId
    else ((id, err), ds1)

/-- Method `insertTranslation`. -/
def insertTranslation (ds : DataStore) (t : Translation) (stringId _domainId : Int) :
    Option Error × DataStore :=
  match ds.db.insertTranslation t.Language.Id t.Content stringId with
  | (err, db1) => (err, { ds with db := db1 })

/-- Method `updateTranslation`. -/
def updateTranslation (ds : DataStore) (t : Translation) (stringId _domainId : Int) :
    Option Error × DataStore :=
  match ds.db.updateTranslation t.Language.Id t.Content stringId t.Id with
  | (err, db1) => (err, { ds with db := db1 })

/-- The string-id part of the loop body of `ImportDomain`: cache read, and on a
miss `createOrGetString` followed by the cache write. -/
def resolveString (ds : DataStore) (name : String) (domId : Int) :
    (Int × Option Error) × DataStore :=
  match ds.stringCache.lookup ⟨domId, name⟩ with
  | some stringId => ((stringId, none), ds)
  | none =>
    match createOrGetString ds name domId with
    | ((_, some e), ds1) => ((0, some e), ds1)
    | ((stringId, none), ds1) =>
      ((stringId, none), { ds1 with stringCache := (⟨domId, name⟩, stringId) :: ds1.stringCache })

/-- The insert-or-update part of the loop body of `ImportDomain`:
`t.Id, err = ds.getTranslationId(&t, domId)` and the branch on `err`. -/
def upsert (ds : DataStore) (t : Translation) (stringId domId : Int) :
    Option Error × DataStore :=
  match getTranslationId ds t domId with
  | ((id, err), ds1) =>
    let t1 : Translation := { t with Id := id }
    match err with
    | some e =>
      if e = Error.ErrNoRows then insertTranslation ds1 t1 stringId domId
      else (some e, ds1)
    | none => updateTranslation ds1 t1 stringId domId

/-- One iteration of the loop of `ImportDomain` for the translation `t0`. -/
def importTranslation (l : Language) (domId : Int) (ds : DataStore) (t0 : Translation) :
    Option Error × DataStore :=
  let t : Translation := { t0 with Language := l }
  match resolveString ds t.Name domId with
  | ((_, some e), ds1) => (some e, ds1)
  | ((stringId, none), ds1) => upsert ds1 t stringId domId

/-- The loop `for _, t := range d.Translations()` with its early return. -/
def importTranslations (l : Language) (domId : Int) :
    DataStore → List Translation → Option Error × DataStore
  | ds, [] => (none, ds)
  | ds, t :: ts =>
    match importTranslation l domId ds t with
    | (some e, ds1) => (some e, ds1)
    | (none, ds1) => importTranslations l domId ds1 ts

/-- Method `ImportDomain`. -/
def ImportDomain (ds : DataStore) (d : Domain) : Option Error × DataStore :=
  match getLanguage ds d.Language with
  | ((_, some e), ds1) => (some e, ds1)
  | ((l, none), ds1) =>
    match createOrGetDomain ds1 d.Name with
    | ((_, some e), ds2) => (some e, ds2)
    | ((domId, none), ds2) => importTranslations l domId ds2 d.Translations

/-! ## ImportDir -/

/-- What `ImportDir` takes from outside the package: `filepath.Join`,
`filepath.Glob`, `filepath.Base`, and `xliff.NewFromFile` followed by the
selection `.File.XliffDomain`. -/
structure Env where
  Join : String → String → String
  Glob : String → List String × Option Error
  Base : String → String
  NewFromFile : String → Domain × Option Error

/-- The loop `for i, file := range files` of `ImportDir` from index `i` on, with
the values sent on `notify` so far. An early return is `some (i, err)`. -/
def importFiles (env : Env) :
    DataStore → List String → Nat → List String → Option (Nat × Error) × DataStore × List String
  | ds, [], _, sent => (none, ds, sent)
  | ds, file :: rest, i, sent =>
    match env.NewFromFile file with
    | (_, some e) => (some (i, e), ds, sent)
    | (x, none) =>
      match ImportDomain ds x with
      | (some e, ds1) => (some (i, e), ds1, sent)
      | (none, ds1) => importFiles env ds1 rest (i + 1) (sent ++ [env.Base file])

/-- Method `ImportDir`: the result `(count, err)`, the DataStore afterwards and
the values sent on `notify`, in order. -/
def ImportDir (env : Env) (ds : DataStore) (dir : String) :
    (Nat × Option Error) × DataStore × List String :=
  match env.Glob (env.Join dir "*.xliff") with
  | (_, some _) => ((0, none), ds, [])
  | (files, none) =>
    match importFiles env ds files 0 [] with
    | (some (i, e), ds1, sent) => ((i, some e), ds1, sent)
    | (none, ds1, sent) => ((files.length, none), ds1, sent)

/-! ## transserver: error checks of the handlers -/

/-- Constant `http.StatusOK`. -/
def StatusOK : Nat := 200

/-- Constant `http.StatusNotFound`. -/
def StatusNotFound : Nat := 404

/-- Constant `http.StatusInternalServerError`. -/
def StatusInternalServerError : Nat := 500

/-- Constant `http.StatusBadRequest`. -/
def StatusBadRequest : Nat := 400

/-- The test `err == sql.ErrNoRows` by which the server recognises "not found". -/
def Error.isNotFound (e : Error) : Bool :=
  decide (e = Error.ErrNoRows)

/-- Text of `e.Error()`. -/
def Error.message : Error → String
  | Error.ErrNoRows => "sql: no rows in result set"
  | Error.New msg => msg
  | Error.Store c => "store failure " ++ toString c

/-- An `http.ResponseWriter`: the status line once it is written, and the body. -/
structure ResponseWriter where
  status : Option Nat
  body : String
deriving DecidableEq, Repr

/-- Call `w.WriteHeader(code)`: the first status written stays. -/
def ResponseWriter.WriteHeader (w : ResponseWriter) (code : Nat) : ResponseWriter :=
  match w.status with
  | some _ => w
  | none => { w with status := some code }

/-- Call `w.Write(b)`: writes status 200 first when none was written. -/
def ResponseWriter.Write (w : ResponseWriter) (b : String) : ResponseWriter :=
  let w1 := w.WriteHeader StatusOK
  { w1 with body := w1.body ++ b }

/-- Call `http.Error(w, msg, code)`. -/
def httpError (w : ResponseWriter) (msg : String) (code : Nat) : ResponseWriter :=
  (w.WriteHeader code).Write (msg ++ "\n")

/-- Function `checkHttpWithStatus`. -/
def checkHttpWithStatus (e : Option Error) (w : ResponseWriter) (status : Nat) :
    Bool × ResponseWriter :=
  match e with
  | some err => (true, httpError w ("Error: " ++ err.message) status)
  | none => (false, w)

/-- Function `checkHttp`. -/
def checkHttp (e : Option Error) (w : ResponseWriter) : Bool × ResponseWriter :=
  checkHttpWithStatus e w StatusInternalServerError

/-- Handler `getDomainHandler`. `err` is the error of `ds.GetFullDomain(name)`;
`encoded` is what `enc.Encode(NewDomain(dom))` writes and the error it returns. -/
def getDomainHandler (w : ResponseWriter) (err : Option Error)
    (encoded : String × Option Error) : ResponseWriter :=
  match checkHttp err w with
  | (true, w1) => w1
  | (false, w1) =>
    match encoded with
    | (_, some e) => (checkHttp (some e) w1).2
    | (json, none) => (checkHttp none (w1.Write json)).2

/-- Handler `createOrUpdateTranslationHandler`. `decodeErr` is the error of
decoding the request body, `err` the error of `ds.CreateOrUpdateTranslation`.
The second component is the domain name sent on `export`, if any. -/
def createOrUpdateTranslationHandler (w : ResponseWriter) (dName : String)
    (decodeErr : Option Error) (err : Option Error) : ResponseWriter × Option String :=
  match decodeErr with
  | some e =>
    (httpError w ("Could not decode request (" ++ e.message ++ ")") StatusBadRequest, none)
  | none =>
    let status :=
      if err = some Error.ErrNoRows then StatusNotFound else StatusInternalServerError
    match checkHttpWithStatus err w status with
    | (true, w1) => (w1, none)
    | (false, w1) => (w1.Write "\x7b\"result\":\"ok\"\x7d\n", some dName)

/-- A writer on which nothing was written yet. -/
def freshWriter : ResponseWriter :=
  { status := none, body := "" }

/-! ## Store constraints and cache agreement -/

/-- The pair that the schema declares unique in table `translation`. -/
def TranslationRow.key (r : TranslationRow) : Int × Int :=
  (r.string_id, r.language_id)

/-- The pair that the schema declares unique in table `string`. -/
def StringRow.key (s : StringRow) : Int × String :=
  (s.domain_id, s.name)

/-- Primary key of table `translation`: no two rows share an id. -/
def DB.TranslationIds (db : DB) : Prop :=
  (db.translation.map (fun r => r.id)).Nodup

instance DB.TranslationIds.decidable (db : DB) : Decidable db.TranslationIds := by
  unfold DB.TranslationIds
  infer_instance

/-- At most one translation row per (string id, language id) pair. -/
def DB.TranslationUnique (db : DB) : Prop :=
  (db.translation.map TranslationRow.key).Nodup

instance DB.TranslationUnique.decidable (db : DB) : Decidable db.TranslationUnique := by
  unfold DB.TranslationUnique
  infer_instance

/-- At most one string row per (domain id, name) pair. -/
def DB.StringUnique (db : DB) : Prop :=
  (db.string.map StringRow.key).Nodup

instance DB.StringUnique.decidable (db : DB) : Decidable db.StringUnique := by
  unfold DB.StringUnique
  infer_instance

/-- The string cache agrees with the store: what it maps a key to is the id of
a string row with that name and domain. -/
def DataStore.StringCacheAgrees (ds : DataStore) : Prop :=
  ∀ k v, ds.stringCache.lookup k = some v →
    (⟨v, k.Name, k.DomainId⟩ : StringRow) ∈ ds.db.string

/-! ## Example values -/

/-- Language row "fr". -/
def french : Language := ⟨1, "French", "fr"⟩

/-- A store with the language "fr" registered and nothing else. -/
def emptyDB : DB :=
  { language := [french], domain := [], string := [], translation := [], faults := [] }

/-- The store `emptyDB` with a given failure schedule. -/
def emptyDBWith (faults : List (Option Nat)) : DB :=
  { emptyDB with faults := faults }

/-- Domain "messages" in German, a language `emptyDB` does not have. -/
def germanMessages : Domain :=
  { Name := "messages", Language := "de",
    Translations := [⟨0, "hello", "Hallo", ⟨0, "", ""⟩⟩] }

/-- An environment whose directory listing fails. -/
def badGlobEnv : Env :=
  { Join := fun d f => d ++ "/" ++ f,
    Glob := fun _ => ([], some (Error.New "syntax error in pattern")),
    Base := fun f => f,
    NewFromFile := fun _ => (germanMessages, none) }

/-- A DataStore after an earlier import: domain "messages" with the string
"hello" and its French translation, both caches filled. -/
def seededStore : DataStore :=
  { db := { language := [french],
            domain := [⟨1, "messages"⟩],
            string := [⟨1, "hello", 1⟩],
            translation := [⟨1, 1, 1, "Salut"⟩],
            faults := [] },
    domainCache := [("messages", 1)],
    stringCache := [(⟨1, "hello"⟩, 1)] }

/-- Translation value with only name and content set. -/
def entry (name content : String) : Translation :=
  ⟨0, name, content, ⟨0, "", ""⟩⟩

/-- Domain "messages" in French; the name "hello" is listed twice. -/
def messagesFr : Domain :=
  { Name := "messages", Language := "fr",
    Translations := [entry "hello" "Bonjour", entry "bye" "Au revoir", entry "hello" "Bonjour !"] }

/-- Domain "A" in French with the string "title". -/
def domainA : Domain :=
  { Name := "A", Language := "fr", Translations := [entry "title" "Titre A"] }

/-- Domain "B" in French with the string "title". -/
def domainB : Domain :=
  { Name := "B", Language := "fr", Translations := [entry "title" "Titre B"] }

/-- Domain "A" again, with a new content for "title". -/
def domainA2 : Domain :=
  { Name := "A", Language := "fr", Translations := [entry "title" "Nouveau titre"] }

/-- The scheduled outcome of the next statement. -/
def DB.fault (db : DB) : Option Nat :=
  db.faults.headD none

/-- The store after one statement that changed no table. -/
def DB.pop (db : DB) : DB :=
  { db with faults := db.faults.tail }

/-- The DataStore after one statement that changed no table. -/
def DataStore.pop (ds : DataStore) : DataStore :=
  { ds with db := ds.db.pop }

/-- What a successful upsert of content `c` for the pair `(sid, lang)` does to
table `translation`: the one row of that pair gets the content `c` and nothing
else changes, or, when the pair has no row, one row is added at the end. -/
def UpsertOutcome (T T1 : List TranslationRow) (sid lang : Int) (c : String) : Prop :=
  (∃ r ∈ T, r.string_id = sid ∧ r.language_id = lang ∧
      T1 = T.map (fun x => if x = r then { r with content := c } else x)) ∨
  ((∀ r ∈ T, ¬ (r.string_id = sid ∧ r.language_id = lang)) ∧
      T1 = T ++ [⟨nextRowId (T.map (fun r => r.id)), sid, lang, c⟩])

/-- Invariant of the DataStore used for the import: primary key of
`translation`, the two uniqueness constraints, and the string cache agreeing
with table `string`. -/
def DataStore.Inv (ds : DataStore) : Prop :=
  ds.db.TranslationIds ∧ ds.db.TranslationUnique ∧ ds.db.StringUnique ∧ ds.StringCacheAgrees

/-- The translation `t`, imported for domain `domId` and language `lang`,
addresses the translation row `x`: the string of `x` is the string row named
`t.Name` in the domain, and the language of `x` is `lang`. -/
def Hits (strs : List StringRow) (domId lang : Int) (t : Translation) (x : TranslationRow) :
    Prop :=
  (⟨x.string_id, t.Name, domId⟩ : StringRow) ∈ strs ∧ x.language_id = lang

instance Hits.decidable (strs : List StringRow) (domId lang : Int) (t : Translation)
    (x : TranslationRow) : Decidable (Hits strs domId lang t x) := by
  unfold Hits
  infer_instance

/-- The row `x` after the import of `t`: new content when `t` addresses it. -/
def rowAfter (strs : List StringRow) (domId lang : Int) (x : TranslationRow) (t : Translation) :
    TranslationRow :=
  if Hits strs domId lang t x then { x with content := t.Content } else x

/-- The row `x` after the import of the translations `ts`, in order. -/
def rowFold (strs : List StringRow) (domId lang : Int) (ts : List Translation)
    (x : TranslationRow) : TranslationRow :=
  ts.foldl (rowAfter strs domId lang) x

/-- The store holds the string row of `t` and a translation row for it in `lang`. -/
def Present (ds : DataStore) (domId lang : Int) (t : Translation) : Prop :=
  ∃ sid, (⟨sid, t.Name, domId⟩ : StringRow) ∈ ds.db.string ∧
    ∃ r ∈ ds.db.translation, r.string_id = sid ∧ r.language_id = lang

/-- Primary key of table `string`. -/
def DB.StringIds (db : DB) : Prop :=
  (db.string.map (fun r => r.id)).Nodup

instance DB.StringIds.decidable (db : DB) : Decidable db.StringIds := by
  unfold DB.StringIds
  infer_instance

/-- Primary key of table `domain`. -/
def DB.DomainIds (db : DB) : Prop :=
  (db.domain.map (fun r => r.id)).Nodup

instance DB.DomainIds.decidable (db : DB) : Decidable db.DomainIds := by
  unfold DB.DomainIds
  infer_instance

/-- At most one domain row per name. -/
def DB.DomainUnique (db : DB) : Prop :=
  (db.domain.map (fun r => r.name)).Nodup

instance DB.DomainUnique.decidable (db : DB) : Decidable db.DomainUnique := by
  unfold DB.DomainUnique
  infer_instance

/-- The domain cache agrees with the store: what it maps a name to is the id of
a domain row with that name. -/
def DataStore.DomainCacheAgrees (ds : DataStore) : Prop :=
  ∀ name id, ds.domainCache.lookup name = some id → (⟨id, name⟩ : DomainRow) ∈ ds.db.domain

/-- The key constraints of tables `domain` and `string` that `Inv` leaves out,
and the domain cache agreeing with the store. -/
def DataStore.DomainInv (ds : DataStore) : Prop :=
  ds.db.StringIds ∧ ds.db.DomainIds ∧ ds.db.DomainUnique ∧ ds.DomainCacheAgrees

/-- The files of a listing that complete successfully in a run of `ImportDir`
that starts in `ds`: the files before the first one whose parsing or whose
`ImportDomain` returns an error. -/
def completedFiles (env : Env) : DataStore → List String → List String
  | _, [] => []
  | ds, file :: rest =>
    match env.NewFromFile file with
    | (_, some _) => []
    | (x, none) =>
      match ImportDomain ds x with
      | (some _, _) => []
      | (none, ds1) => file :: completedFiles env ds1 rest

/-! ## Theorems -/

/-- C4: the creation path of `createOrGetDomain` does not write the cache. It
returns the new id but leaves the domain cache without an entry for the name,
and the call that follows goes to the store again: with a failure scheduled
for the third statement, the first call succeeds with id 1 and the second one
fails. -/
theorem createOrGetDomain_created_not_cached :
    (createOrGetDomain (DataStore.New (emptyDBWith [none, none, some 7])) "messages").1
        = (1, none) ∧
    (createOrGetDomain (DataStore.New (emptyDBWith [none, none, some 7])) "messages").2.domainCache.lookup
        "messages" = none ∧
    (createOrGetDomain
        (createOrGetDomain (DataStore.New (emptyDBWith [none, none, some 7])) "messages").2
        "messages").1 = (0, some (Error.Store 7)) := by
  refine ⟨?_, ?_, ?_⟩ <;> rfl

/-- C5: a failed INSERT of a domain row is swallowed. When the lookup finds no
row and the INSERT of the new domain row fails, `createOrGetDomain` returns
id 0 and a nil error, and no domain row is written. -/
theorem createOrGetDomain_swallows_insert_failure :
    (createOrGetDomain (DataStore.New (emptyDBWith [none, some 5])) "messages").1 = (0, none) ∧
    (createOrGetDomain (DataStore.New (emptyDBWith [none, some 5])) "messages").2.db.domain = [] := by
  refine ⟨?_, ?_⟩ <;> rfl

/-- C6: a failed directory listing is swallowed. When listing the directory
fails, `ImportDir` returns count 0 and a nil error. -/
theorem ImportDir_swallows_glob_failure :
    (badGlobEnv.Glob (badGlobEnv.Join "in[" "*.xliff")).2
        = some (Error.New "syntax error in pattern") ∧
    (ImportDir badGlobEnv (DataStore.New emptyDB) "in[").1 = (0, none) := by
  refine ⟨?_, ?_⟩ <;> rfl

/-- C10: `getDomainHandler` answers every engine error with status
500, also the error that the server recognises as "not found". -/
theorem getDomainHandler_error_is_500 (e : Error) (encoded : String × Option Error) :
    Error.isNotFound Error.ErrNoRows = true ∧
    (getDomainHandler freshWriter (some e) encoded).status = some StatusInternalServerError ∧
    (getDomainHandler freshWriter (some Error.ErrNoRows) encoded).status ≠ some StatusNotFound := by
  refine ⟨rfl, rfl, ?_⟩
  show (some StatusInternalServerError : Option Nat) ≠ some StatusNotFound
  decide

/-! ### Store primitives -/

theorem DB.next_eq (db : DB) : db.next = (db.fault, db.pop) := by
  cases db with
  | mk a b c d f => cases f <;> rfl

theorem DB.fault_of_no_faults (db : DB) (h : db.faults = []) : db.fault = none := by
  simp [DB.fault, h]

theorem DataStore.pop_of_no_faults (ds : DataStore) (h : ds.db.faults = []) : ds.pop = ds := by
  cases ds with
  | mk db dc sc =>
    cases db with
    | mk a b c d f =>
      simp only at h
      subst h
      rfl

theorem le_maxFrom (xs : List Int) :
    ∀ x : Int, x ≤ maxFrom x xs ∧ ∀ y ∈ xs, y ≤ maxFrom x xs := by
  induction xs with
  | nil => intro x; simp [maxFrom]
  | cons a as ih =>
    intro x
    have h := ih (max x a)
    simp only [maxFrom, List.foldl_cons] at h ⊢
    refine ⟨le_trans (le_max_left x a) h.1, ?_⟩
    intro y hy
    rcases List.mem_cons.mp hy with rfl | hy
    · exact le_trans (le_max_right x y) h.1
    · exact h.2 y hy

theorem nextRowId_not_mem (ids : List Int) : nextRowId ids ∉ ids := by
  cases ids with
  | nil => simp
  | cons x xs =>
    intro h
    have hb := le_maxFrom xs x
    simp only [nextRowId] at h
    rcases List.mem_cons.mp h with h | h
    · have := hb.1
      omega
    · have := hb.2 _ h
      omega

/-! ### Statements of the string resolver, case by case -/

theorem getStringId_fault (ds : DataStore) (name : String) (domId : Int) (c : Nat)
    (hf : ds.db.fault = some c) :
    getStringId ds name domId = ((0, some (Error.Store c)), ds.pop) := by
  simp only [getStringId, DB.selectStringId, DB.next_eq, hf]
  rfl

theorem getStringId_found (ds : DataStore) (name : String) (domId : Int) (s : StringRow)
    (hf : ds.db.fault = none)
    (hs : ds.db.string.find? (fun s => s.name = name ∧ s.domain_id = domId) = some s) :
    getStringId ds name domId = ((s.id, none), ds.pop) := by
  have hs2 : ds.db.pop.string.find? (fun s => s.name = name ∧ s.domain_id = domId) = some s := hs
  simp only [getStringId, DB.selectStringId, DB.next_eq, hf, hs2]
  rfl

theorem getStringId_none (ds : DataStore) (name : String) (domId : Int)
    (hf : ds.db.fault = none)
    (hs : ds.db.string.find? (fun s => s.name = name ∧ s.domain_id = domId) = none) :
    getStringId ds name domId = ((0, some Error.ErrNoRows), ds.pop) := by
  have hs2 : ds.db.pop.string.find? (fun s => s.name = name ∧ s.domain_id = domId) = none := hs
  simp only [getStringId, DB.selectStringId, DB.next_eq, hf, hs2]
  rfl

theorem createString_fault (ds : DataStore) (name : String) (domId : Int) (c : Nat)
    (hf : ds.db.fault = some c) :
    createString ds name domId = ((0, some (Error.Store c)), ds.pop) := by
  simp only [createString, DB.insertString, DB.next_eq, hf]
  rfl

theorem createString_ok (ds : DataStore) (name : String) (domId : Int)
    (hf : ds.db.fault = none) :
    createString ds name domId =
      ((nextRowId (ds.db.string.map (fun r => r.id)), none),
        { ds.pop with db := { ds.db.pop with string :=
            ds.db.string ++ [⟨nextRowId (ds.db.string.map (fun r => r.id)), name, domId⟩] } }) := by
  simp only [createString, DB.insertString, DB.next_eq, hf]
  rfl

theorem createOrGetString_cases (ds : DataStore) (name : String) (domId : Int) :
    (∃ c, ds.db.fault = some c ∧
      createOrGetString ds name domId = ((0, some (Error.Store c)), ds.pop)) ∨
    (∃ s, ds.db.fault = none ∧
      ds.db.string.find? (fun s => s.name = name ∧ s.domain_id = domId) = some s ∧
      createOrGetString ds name domId = ((s.id, none), ds.pop)) ∨
    (∃ c, ds.db.fault = none ∧
      ds.db.string.find? (fun s => s.name = name ∧ s.domain_id = domId) = none ∧
      ds.pop.db.fault = some c ∧
      createOrGetString ds name domId = ((0, some (Error.Store c)), ds.pop.pop)) ∨
    (ds.db.fault = none ∧
      ds.db.string.find? (fun s => s.name = name ∧ s.domain_id = domId) = none ∧
      ds.pop.db.fault = none ∧
      createOrGetString ds name domId =
        ((nextRowId (ds.db.string.map (fun r => r.id)), none),
          { ds.pop.pop with db := { ds.db.pop.pop with string :=
            ds.db.string ++ [⟨nextRowId (ds.db.string.map (fun r => r.id)), name, domId⟩] } })) := by
  cases hf : ds.db.fault with
  | some c =>
    left
    exact ⟨c, rfl, by simp [createOrGetString, getStringId_fault ds name domId c hf]⟩
  | none =>
    right
    cases hs : ds.db.string.find? (fun s => s.name = name ∧ s.domain_id = domId) with
    | some s =>
      left
      exact ⟨s, rfl, rfl, by simp [createOrGetString, getStringId_found ds name domId s hf hs]⟩
    | none =>
      right
      cases hf2 : ds.pop.db.fault with
      | some c =>
        left
        refine ⟨c, rfl, rfl, rfl, ?_⟩
        simp [createOrGetString, getStringId_none ds name domId hf hs,
          createString_fault ds.pop name domId c hf2]
      | none =>
        right
        refine ⟨rfl, rfl, rfl, ?_⟩
        simp only [createOrGetString, getStringId_none ds name domId hf hs,
          createString_ok ds.pop name domId hf2, if_true]
        rfl

theorem stringUnique_append (rows : List StringRow) (id : Int) (name : String) (domId : Int)
    (hU : (rows.map StringRow.key).Nodup)
    (hno : ∀ s ∈ rows, ¬ (s.name = name ∧ s.domain_id = domId)) :
    ((rows ++ [(⟨id, name, domId⟩ : StringRow)]).map StringRow.key).Nodup := by
  rw [List.map_append, List.nodup_append]
  refine ⟨hU, by simp, ?_⟩
  intro k hk hk2
  simp only [List.map_cons, List.map_nil, List.mem_singleton] at hk2
  obtain ⟨s, hs, rfl⟩ := List.mem_map.mp hk
  simp only [StringRow.key, Prod.mk.injEq] at hk2
  exact hno s hs ⟨hk2.2, hk2.1⟩

theorem agrees_cons (cache : List (StringKey × Int)) (rows : List StringRow)
    (name : String) (domId sid : Int)
    (hA : ∀ k v, cache.lookup k = some v → (⟨v, k.Name, k.DomainId⟩ : StringRow) ∈ rows)
    (hin : (⟨sid, name, domId⟩ : StringRow) ∈ rows) :
    ∀ k v, (((⟨domId, name⟩ : StringKey), sid) :: cache).lookup k = some v →
      (⟨v, k.Name, k.DomainId⟩ : StringRow) ∈ rows := by
  intro k v hk
  simp only [List.lookup_cons] at hk
  split at hk
  · next hkeq =>
    simp only [beq_iff_eq] at hkeq
    subst hkeq
    simp only [Option.some.injEq] at hk
    subst hk
    exact hin
  · exact hA k v hk

theorem resolveString_spec (ds : DataStore) (name : String) (domId : Int)
    (hSU : ds.db.StringUnique) (hA : ds.StringCacheAgrees)
    (id : Int) (err : Option Error) (ds1 : DataStore)
    (h : resolveString ds name domId = ((id, err), ds1)) :
    ds1.db.translation = ds.db.translation ∧
    ds1.db.language = ds.db.language ∧
    ds1.db.domain = ds.db.domain ∧
    ds1.domainCache = ds.domainCache ∧
    ds1.db.StringUnique ∧
    ds1.StringCacheAgrees ∧
    (ds1.db.string = ds.db.string ∨
      ((∀ s ∈ ds.db.string, ¬ (s.name = name ∧ s.domain_id = domId)) ∧
        ds1.db.string =
          ds.db.string ++ [⟨nextRowId (ds.db.string.map (fun r => r.id)), name, domId⟩])) ∧
    (err = none → (⟨id, name, domId⟩ : StringRow) ∈ ds1.db.string) ∧
    (ds.db.faults = [] → err = none ∧ ds1.db.faults = []) := by
  unfold resolveString at h
  split at h
  · next sid hc =>
    simp only [Prod.mk.injEq] at h
    obtain ⟨⟨rfl, rfl⟩, rfl⟩ := h
    exact ⟨rfl, rfl, rfl, rfl, hSU, hA, Or.inl rfl, fun _ => hA _ _ hc, fun hf => ⟨rfl, hf⟩⟩
  · next hc =>
    rcases createOrGetString_cases ds name domId with
      ⟨c, hf, hr⟩ | ⟨s, hf, hs, hr⟩ | ⟨c, hf, hs, hf2, hr⟩ | ⟨hf, hs, hf2, hr⟩
    · rw [hr] at h
      simp only [Prod.mk.injEq] at h
      obtain ⟨⟨rfl, rfl⟩, rfl⟩ := h
      refine ⟨rfl, rfl, rfl, rfl, hSU, hA, Or.inl rfl, by simp, ?_⟩
      intro hnf
      rw [DB.fault_of_no_faults _ hnf] at hf
      cases hf
    · rw [hr] at h
      simp only [Prod.mk.injEq] at h
      obtain ⟨⟨rfl, rfl⟩, rfl⟩ := h
      have hmem := List.mem_of_find?_eq_some hs
      have hp := List.find?_some hs
      simp only [decide_eq_true_eq] at hp
      have hrow : (⟨s.id, name, domId⟩ : StringRow) = s := by
        cases s
        simp_all
      have hin : (⟨s.id, name, domId⟩ : StringRow) ∈ ds.db.string := hrow ▸ hmem
      refine ⟨rfl, rfl, rfl, rfl, hSU, agrees_cons _ _ _ _ _ hA hin, Or.inl rfl,
        fun _ => hin, ?_⟩
      intro hnf
      refine ⟨rfl, ?_⟩
      show ds.db.faults.tail = []
      simp [hnf]
    · rw [hr] at h
      simp only [Prod.mk.injEq] at h
      obtain ⟨⟨rfl, rfl⟩, rfl⟩ := h
      refine ⟨rfl, rfl, rfl, rfl, hSU, hA, Or.inl rfl, by simp, ?_⟩
      intro hnf
      have : ds.pop.db.fault = none := by
        simp [DB.fault, DataStore.pop, DB.pop, hnf]
      rw [this] at hf2
      cases hf2
    · rw [hr] at h
      simp only [Prod.mk.injEq] at h
      obtain ⟨⟨rfl, rfl⟩, rfl⟩ := h
      have hno := List.find?_eq_none.mp hs
      simp only [decide_eq_true_eq] at hno
      refine ⟨rfl, rfl, rfl, rfl, stringUnique_append _ _ _ _ hSU hno, ?_, Or.inr ⟨hno, rfl⟩,
        fun _ => ?_, ?_⟩
      · refine agrees_cons _ _ _ _ _ ?_ ?_
        · intro k v hk
          exact List.mem_append_left _ (hA k v hk)
        · exact List.mem_append_right _ (List.mem_singleton.mpr rfl)
      · exact List.mem_append_right _ (List.mem_singleton.mpr rfl)
      · intro hnf
        refine ⟨rfl, ?_⟩
        show ds.db.faults.tail.tail = []
        simp [hnf]

/-! ### The upsert, case by case -/

theorem getTranslationId_fault (ds : DataStore) (t : Translation) (domId : Int) (c : Nat)
    (hf : ds.db.fault = some c) :
    getTranslationId ds t domId = ((0, some (Error.Store c)), ds.pop) := by
  simp only [getTranslationId, DB.selectTranslationId, DB.next_eq, hf]
  rfl

theorem getTranslationId_found (ds : DataStore) (t : Translation) (domId : Int)
    (r : TranslationRow) (rs : List TranslationRow)
    (hf : ds.db.fault = none)
    (hj : ds.db.joinTranslation t.Name t.Language.Id domId = r :: rs) :
    getTranslationId ds t domId = ((r.id, none), ds.pop) := by
  have hj2 : ds.db.pop.joinTranslation t.Name t.Language.Id domId = r :: rs := hj
  simp only [getTranslationId, DB.selectTranslationId, DB.next_eq, hf, hj2]
  rfl

theorem getTranslationId_none (ds : DataStore) (t : Translation) (domId : Int)
    (hf : ds.db.fault = none)
    (hj : ds.db.joinTranslation t.Name t.Language.Id domId = []) :
    getTranslationId ds t domId = ((0, some Error.ErrNoRows), ds.pop) := by
  have hj2 : ds.db.pop.joinTranslation t.Name t.Language.Id domId = [] := hj
  simp only [getTranslationId, DB.selectTranslationId, DB.next_eq, hf, hj2]
  rfl

theorem insertTranslation_fault (ds : DataStore) (t : Translation) (sid domId : Int) (c : Nat)
    (hf : ds.db.fault = some c) :
    insertTranslation ds t sid domId = (some (Error.Store c), ds.pop) := by
  simp only [insertTranslation, DB.insertTranslation, DB.next_eq, hf]
  rfl

theorem insertTranslation_ok (ds : DataStore) (t : Translation) (sid domId : Int)
    (hf : ds.db.fault = none) :
    insertTranslation ds t sid domId =
      (none, { ds.pop with db := { ds.db.pop with translation := ds.db.translation ++
        [⟨nextRowId (ds.db.translation.map (fun r => r.id)), sid, t.Language.Id, t.Content⟩] } }) := by
  simp only [insertTranslation, DB.insertTranslation, DB.next_eq, hf]
  rfl

theorem updateTranslation_fault (ds : DataStore) (t : Translation) (sid domId : Int) (c : Nat)
    (hf : ds.db.fault = some c) :
    updateTranslation ds t sid domId = (some (Error.Store c), ds.pop) := by
  simp only [updateTranslation, DB.updateTranslation, DB.next_eq, hf]
  rfl

theorem updateTranslation_ok (ds : DataStore) (t : Translation) (sid domId : Int)
    (hf : ds.db.fault = none) :
    updateTranslation ds t sid domId =
      (none, { ds.pop with db := { ds.db.pop with translation := (ds.db.translation.map
        (fun r => if r.id = t.Id then ⟨r.id, sid, t.Language.Id, t.Content⟩ else r)) } }) := by
  simp only [updateTranslation, DB.updateTranslation, DB.next_eq, hf]
  rfl

theorem upsert_cases (ds : DataStore) (t : Translation) (sid domId : Int) :
    (∃ c, ds.db.fault = some c ∧ upsert ds t sid domId = (some (Error.Store c), ds.pop)) ∨
    (∃ c r rs, ds.db.fault = none ∧
      ds.db.joinTranslation t.Name t.Language.Id domId = r :: rs ∧ ds.pop.db.fault = some c ∧
      upsert ds t sid domId = (some (Error.Store c), ds.pop.pop)) ∨
    (∃ r rs, ds.db.fault = none ∧
      ds.db.joinTranslation t.Name t.Language.Id domId = r :: rs ∧ ds.pop.db.fault = none ∧
      upsert ds t sid domId =
        (none, { ds.pop.pop with db := { ds.db.pop.pop with translation := (ds.db.translation.map
          (fun x => if x.id = r.id then ⟨x.id, sid, t.Language.Id, t.Content⟩ else x)) } })) ∨
    (∃ c, ds.db.fault = none ∧
      ds.db.joinTranslation t.Name t.Language.Id domId = [] ∧ ds.pop.db.fault = some c ∧
      upsert ds t sid domId = (some (Error.Store c), ds.pop.pop)) ∨
    (ds.db.fault = none ∧
      ds.db.joinTranslation t.Name t.Language.Id domId = [] ∧ ds.pop.db.fault = none ∧
      upsert ds t sid domId =
        (none, { ds.pop.pop with db := { ds.db.pop.pop with translation := ds.db.translation ++
          [⟨nextRowId (ds.db.translation.map (fun r => r.id)), sid, t.Language.Id,
            t.Content⟩] } })) := by
  cases hf : ds.db.fault with
  | some c =>
    left
    exact ⟨c, rfl, by simp [upsert, getTranslationId_fault ds t domId c hf]⟩
  | none =>
    right
    cases hj : ds.db.joinTranslation t.Name t.Language.Id domId with
    | cons r rs =>
      cases hf2 : ds.pop.db.fault with
      | some c =>
        left
        refine ⟨c, r, rs, rfl, rfl, rfl, ?_⟩
        simp only [upsert, getTranslationId_found ds t domId r rs hf hj]
        exact updateTranslation_fault ds.pop _ sid domId c hf2
      | none =>
        right
        left
        refine ⟨r, rs, rfl, rfl, rfl, ?_⟩
        simp only [upsert, getTranslationId_found ds t domId r rs hf hj]
        exact updateTranslation_ok ds.pop _ sid domId hf2
    | nil =>
      right
      right
      cases hf2 : ds.pop.db.fault with
      | some c =>
        left
        refine ⟨c, rfl, rfl, rfl, ?_⟩
        simp only [upsert, getTranslationId_none ds t domId hf hj, if_true]
        exact insertTranslation_fault ds.pop _ sid domId c hf2
      | none =>
        right
        refine ⟨rfl, rfl, rfl, ?_⟩
        simp only [upsert, getTranslationId_none ds t domId hf hj, if_true]
        exact insertTranslation_ok ds.pop _ sid domId hf2

theorem mem_joinTranslation (db : DB) (name : String) (lang domId : Int) (r : TranslationRow) :
    r ∈ db.joinTranslation name lang domId ↔
      ∃ s ∈ db.string, s.name = name ∧ s.domain_id = domId ∧
        r ∈ db.translation ∧ r.string_id = s.id ∧ r.language_id = lang := by
  simp only [DB.joinTranslation, List.mem_flatMap, List.mem_filter, decide_eq_true_eq]
  constructor
  · rintro ⟨s, ⟨hs, hn, hd⟩, hr, h1, h2⟩
    exact ⟨s, hs, hn, hd, hr, h1, h2⟩
  · rintro ⟨s, hs, hn, hd, hr, h1, h2⟩
    exact ⟨s, ⟨hs, hn, hd⟩, hr, h1, h2⟩

theorem setContent_ids (T : List TranslationRow) (r : TranslationRow) (c : String) :
    (T.map (fun x => if x = r then { r with content := c } else x)).map (fun x => x.id)
      = T.map (fun x => x.id) := by
  rw [List.map_map]
  apply List.map_congr_left
  intro x _
  by_cases hx : x = r
  · simp [hx]
  · simp [hx]

theorem setContent_keys (T : List TranslationRow) (r : TranslationRow) (c : String) :
    (T.map (fun x => if x = r then { r with content := c } else x)).map TranslationRow.key
      = T.map TranslationRow.key := by
  rw [List.map_map]
  apply List.map_congr_left
  intro x _
  by_cases hx : x = r
  · simp [hx, TranslationRow.key]
  · simp [hx]

theorem update_by_id_eq (T : List TranslationRow) (r : TranslationRow) (c : String)
    (hPK : (T.map (fun x => x.id)).Nodup) (hr : r ∈ T) :
    T.map (fun x => if x.id = r.id then ⟨x.id, r.string_id, r.language_id, c⟩ else x)
      = T.map (fun x => if x = r then { r with content := c } else x) := by
  apply List.map_congr_left
  intro x hx
  by_cases hxr : x = r
  · simp [hxr]
  · have hid : x.id ≠ r.id := fun h => hxr (List.inj_on_of_nodup_map hPK hx hr h)
    simp [hxr, hid]

theorem upsert_spec (ds : DataStore) (t : Translation) (sid domId : Int)
    (hPK : ds.db.TranslationIds) (hTU : ds.db.TranslationUnique) (hSU : ds.db.StringUnique)
    (hin : (⟨sid, t.Name, domId⟩ : StringRow) ∈ ds.db.string)
    (err : Option Error) (ds1 : DataStore) (h : upsert ds t sid domId = (err, ds1)) :
    ds1.db.string = ds.db.string ∧
    ds1.db.language = ds.db.language ∧
    ds1.db.domain = ds.db.domain ∧
    ds1.domainCache = ds.domainCache ∧
    ds1.stringCache = ds.stringCache ∧
    ds1.db.TranslationIds ∧
    ds1.db.TranslationUnique ∧
    (ds1.db.translation = ds.db.translation ∨
      UpsertOutcome ds.db.translation ds1.db.translation sid t.Language.Id t.Content) ∧
    (ds.db.faults = [] → err = none ∧ ds1.db.faults = [] ∧
      UpsertOutcome ds.db.translation ds1.db.translation sid t.Language.Id t.Content) := by
  have hjoin : ∀ r, r ∈ ds.db.joinTranslation t.Name t.Language.Id domId →
      r ∈ ds.db.translation ∧ r.string_id = sid ∧ r.language_id = t.Language.Id := by
    intro r hr
    obtain ⟨s, hs, hn, hd, hrT, h1, h2⟩ := (mem_joinTranslation _ _ _ _ _).mp hr
    have hse : s = ⟨sid, t.Name, domId⟩ := by
      apply List.inj_on_of_nodup_map hSU hs hin
      simp [StringRow.key, hn, hd]
    subst hse
    exact ⟨hrT, h1, h2⟩
  have hpop1 : ∀ c, ds.db.faults = [] → ds.db.fault ≠ some c := by
    intro c hnf hc
    rw [DB.fault_of_no_faults _ hnf] at hc
    cases hc
  have hpop2 : ∀ c, ds.db.faults = [] → ds.pop.db.fault ≠ some c := by
    intro c hnf hc
    have : ds.pop.db.fault = none := by
      simp [DB.fault, DataStore.pop, DB.pop, hnf]
    rw [this] at hc
    cases hc
  have hnf2 : ds.db.faults = [] → ds.pop.pop.db.faults = [] := by
    intro hnf
    show ds.db.faults.tail.tail = []
    simp [hnf]
  rcases upsert_cases ds t sid domId with
    ⟨c, hf, hr⟩ | ⟨c, r, rs, hf, hj, hf2, hr⟩ | ⟨r, rs, hf, hj, hf2, hr⟩ |
      ⟨c, hf, hj, hf2, hr⟩ | ⟨hf, hj, hf2, hr⟩
  · rw [hr] at h
    simp only [Prod.mk.injEq] at h
    obtain ⟨rfl, rfl⟩ := h
    exact ⟨rfl, rfl, rfl, rfl, rfl, hPK, hTU, Or.inl rfl, fun hnf => absurd hf (hpop1 c hnf)⟩
  · rw [hr] at h
    simp only [Prod.mk.injEq] at h
    obtain ⟨rfl, rfl⟩ := h
    exact ⟨rfl, rfl, rfl, rfl, rfl, hPK, hTU, Or.inl rfl, fun hnf => absurd hf2 (hpop2 c hnf)⟩
  · rw [hr] at h
    simp only [Prod.mk.injEq] at h
    obtain ⟨rfl, rfl⟩ := h
    obtain ⟨hrT, hrs, hrl⟩ := hjoin r (by rw [hj]; exact List.mem_cons_self _ _)
    have hmap : ds.db.translation.map
          (fun x => if x.id = r.id then ⟨x.id, sid, t.Language.Id, t.Content⟩ else x)
        = ds.db.translation.map (fun x => if x = r then { r with content := t.Content } else x) := by
      rw [← hrs, ← hrl]
      exact update_by_id_eq _ r t.Content hPK hrT
    have hout : UpsertOutcome ds.db.translation
        (ds.db.translation.map
          (fun x => if x.id = r.id then ⟨x.id, sid, t.Language.Id, t.Content⟩ else x))
        sid t.Language.Id t.Content := Or.inl ⟨r, hrT, hrs, hrl, hmap⟩
    refine ⟨rfl, rfl, rfl, rfl, rfl, ?_, ?_, Or.inr hout, fun hnf => ⟨rfl, hnf2 hnf, hout⟩⟩
    · show (List.map (fun x : TranslationRow => x.id) (ds.db.translation.map _)).Nodup
      rw [hmap, setContent_ids]
      exact hPK
    · show (List.map TranslationRow.key (ds.db.translation.map _)).Nodup
      rw [hmap, setContent_keys]
      exact hTU
  · rw [hr] at h
    simp only [Prod.mk.injEq] at h
    obtain ⟨rfl, rfl⟩ := h
    exact ⟨rfl, rfl, rfl, rfl, rfl, hPK, hTU, Or.inl rfl, fun hnf => absurd hf2 (hpop2 c hnf)⟩
  · rw [hr] at h
    simp only [Prod.mk.injEq] at h
    obtain ⟨rfl, rfl⟩ := h
    have hno : ∀ r ∈ ds.db.translation, ¬ (r.string_id = sid ∧ r.language_id = t.Language.Id) := by
      intro r hrT hk
      have : r ∈ ds.db.joinTranslation t.Name t.Language.Id domId :=
        (mem_joinTranslation _ _ _ _ _).mpr ⟨_, hin, rfl, rfl, hrT, hk.1, hk.2⟩
      rw [hj] at this
      cases this
    have hout : UpsertOutcome ds.db.translation
        (ds.db.translation ++
          [⟨nextRowId (ds.db.translation.map (fun r => r.id)), sid, t.Language.Id, t.Content⟩])
        sid t.Language.Id t.Content := Or.inr ⟨hno, rfl⟩
    refine ⟨rfl, rfl, rfl, rfl, rfl, ?_, ?_, Or.inr hout, fun hnf => ⟨rfl, hnf2 hnf, hout⟩⟩
    · show (List.map (fun x : TranslationRow => x.id) (ds.db.translation ++ _)).Nodup
      rw [List.map_append, List.nodup_append]
      refine ⟨hPK, by simp, ?_⟩
      intro k hk hk2
      simp only [List.map_cons, List.map_nil, List.mem_singleton] at hk2
      subst hk2
      exact nextRowId_not_mem _ hk
    · show (List.map TranslationRow.key (ds.db.translation ++ _)).Nodup
      rw [List.map_append, List.nodup_append]
      refine ⟨hTU, by simp, ?_⟩
      intro k hk hk2
      simp only [List.map_cons, List.map_nil, List.mem_singleton] at hk2
      obtain ⟨x, hx, rfl⟩ := List.mem_map.mp hk
      simp only [TranslationRow.key, Prod.mk.injEq] at hk2
      exact hno x hx hk2

/-! ### One iteration, the loop, and the invariant -/

theorem importTranslation_spec (l : Language) (domId : Int) (ds : DataStore) (t : Translation)
    (hInv : ds.Inv) (err : Option Error) (ds1 : DataStore)
    (h : importTranslation l domId ds t = (err, ds1)) :
    ds1.Inv ∧
    ds1.db.language = ds.db.language ∧
    ds1.db.domain = ds.db.domain ∧
    ds1.domainCache = ds.domainCache ∧
    (ds1.db.string = ds.db.string ∨
      ((∀ s ∈ ds.db.string, ¬ (s.name = t.Name ∧ s.domain_id = domId)) ∧
        ds1.db.string =
          ds.db.string ++ [⟨nextRowId (ds.db.string.map (fun r => r.id)), t.Name, domId⟩])) ∧
    (ds1.db.translation = ds.db.translation ∨
      ∃ sid, (⟨sid, t.Name, domId⟩ : StringRow) ∈ ds1.db.string ∧
        UpsertOutcome ds.db.translation ds1.db.translation sid l.Id t.Content) ∧
    (ds.db.faults = [] → err = none ∧ ds1.db.faults = [] ∧
      ∃ sid, (⟨sid, t.Name, domId⟩ : StringRow) ∈ ds1.db.string ∧
        UpsertOutcome ds.db.translation ds1.db.translation sid l.Id t.Content) := by
  obtain ⟨hPK, hTU, hSU, hA⟩ := hInv
  unfold importTranslation at h
  simp only at h
  rcases hrs : resolveString ds t.Name domId with ⟨⟨sid, e⟩, dsa⟩
  obtain ⟨hT, hL, hD, hDC, hSU1, hA1, hS, hmem, hnf⟩ :=
    resolveString_spec ds t.Name domId hSU hA sid e dsa hrs
  rw [hrs] at h
  cases e with
  | some e =>
    simp only [Prod.mk.injEq] at h
    obtain ⟨rfl, rfl⟩ := h
    refine ⟨⟨?_, ?_, hSU1, hA1⟩, hL, hD, hDC, hS, Or.inl hT, ?_⟩
    · unfold DB.TranslationIds
      rw [hT]
      exact hPK
    · unfold DB.TranslationUnique
      rw [hT]
      exact hTU
    · intro hf
      have := (hnf hf).1
      cases this
  | none =>
    simp only at h
    have hPKa : dsa.db.TranslationIds := by
      unfold DB.TranslationIds
      rw [hT]
      exact hPK
    have hTUa : dsa.db.TranslationUnique := by
      unfold DB.TranslationUnique
      rw [hT]
      exact hTU
    obtain ⟨hS2, hL2, hD2, hDC2, hSC2, hPK2, hTU2, hOut, hnf2⟩ :=
      upsert_spec dsa { t with Language := l } sid domId hPKa hTUa hSU1 (hmem rfl) err ds1 h
    simp only at hOut hnf2
    rw [hT] at hOut hnf2
    have hmem1 : (⟨sid, t.Name, domId⟩ : StringRow) ∈ ds1.db.string := by
      rw [hS2]
      exact hmem rfl
    refine ⟨⟨hPK2, hTU2, ?_, ?_⟩, hL2.trans hL, hD2.trans hD, hDC2.trans hDC, ?_, ?_, ?_⟩
    · unfold DB.StringUnique
      rw [hS2]
      exact hSU1
    · intro k v hk
      rw [hSC2] at hk
      rw [hS2]
      exact hA1 k v hk
    · rw [hS2]
      exact hS
    · rcases hOut with h1 | h1
      · exact Or.inl h1
      · exact Or.inr ⟨sid, hmem1, h1⟩
    · intro hf
      obtain ⟨h1, h2, h3⟩ := hnf2 (hnf hf).2
      exact ⟨h1, h2, sid, hmem1, h3⟩

theorem importTranslations_inv (l : Language) (domId : Int) (ts : List Translation) :
    ∀ ds : DataStore, ds.Inv →
      (importTranslations l domId ds ts).2.Inv ∧
      (importTranslations l domId ds ts).2.db.language = ds.db.language ∧
      (importTranslations l domId ds ts).2.db.domain = ds.db.domain ∧
      (importTranslations l domId ds ts).2.domainCache = ds.domainCache := by
  induction ts with
  | nil =>
    intro ds h
    exact ⟨h, rfl, rfl, rfl⟩
  | cons t ts ih =>
    intro ds h
    rcases hstep : importTranslation l domId ds t with ⟨e, ds1⟩
    obtain ⟨hI, hL, hD, hDC, -⟩ := importTranslation_spec l domId ds t h e ds1 hstep
    simp only [importTranslations, hstep]
    cases e with
    | some e => exact ⟨hI, hL, hD, hDC⟩
    | none =>
      obtain ⟨h1, h2, h3, h4⟩ := ih ds1 hI
      exact ⟨h1, h2.trans hL, h3.trans hD, h4.trans hDC⟩

/-! ### Language and domain resolution -/

theorem getLanguage_cases (ds : DataStore) (code : String) :
    (∃ c, ds.db.fault = some c ∧
      getLanguage ds code = ((⟨0, "", ""⟩, some (Error.Store c)), ds.pop)) ∨
    (∃ l, ds.db.fault = none ∧ ds.db.language.find? (fun l => l.Code = code) = some l ∧
      getLanguage ds code = ((l, none), ds.pop)) ∨
    (ds.db.fault = none ∧ ds.db.language.find? (fun l => l.Code = code) = none ∧
      getLanguage ds code = ((⟨0, "", ""⟩, some (Error.New (languageMissing code))), ds.pop)) := by
  cases hf : ds.db.fault with
  | some c =>
    left
    refine ⟨c, rfl, ?_⟩
    simp only [getLanguage, DB.selectLanguage, DB.next_eq, hf]
    rfl
  | none =>
    right
    cases hl : ds.db.language.find? (fun l => l.Code = code) with
    | some l =>
      left
      have hl2 : ds.db.pop.language.find? (fun l => l.Code = code) = some l := hl
      refine ⟨l, rfl, rfl, ?_⟩
      simp only [getLanguage, DB.selectLanguage, DB.next_eq, hf, hl2]
      rfl
    | none =>
      right
      have hl2 : ds.db.pop.language.find? (fun l => l.Code = code) = none := hl
      refine ⟨rfl, rfl, ?_⟩
      simp only [getLanguage, DB.selectLanguage, DB.next_eq, hf, hl2]
      rfl

theorem getLanguage_state (ds : DataStore) (code : String) :
    (getLanguage ds code).2 = ds.pop := by
  rcases getLanguage_cases ds code with ⟨c, _, h⟩ | ⟨l, _, _, h⟩ | ⟨_, _, h⟩ <;> rw [h]

theorem createOrGetDomain_cases (ds : DataStore) (name : String) :
    (∃ id, ds.domainCache.lookup name = some id ∧
      createOrGetDomain ds name = ((id, none), ds)) ∨
    (∃ c, ds.domainCache.lookup name = none ∧ ds.db.fault = some c ∧
      createOrGetDomain ds name = ((0, some (Error.Store c)), ds.pop)) ∨
    (∃ r, ds.domainCache.lookup name = none ∧ ds.db.fault = none ∧
      ds.db.domain.find? (fun r => r.name = name) = some r ∧
      createOrGetDomain ds name =
        ((r.id, none), { ds.pop with domainCache := (name, r.id) :: ds.domainCache })) ∨
    (∃ c, ds.domainCache.lookup name = none ∧ ds.db.fault = none ∧
      ds.db.domain.find? (fun r => r.name = name) = none ∧ ds.pop.db.fault = some c ∧
      createOrGetDomain ds name = ((0, none), ds.pop.pop)) ∨
    (ds.domainCache.lookup name = none ∧ ds.db.fault = none ∧
      ds.db.domain.find? (fun r => r.name = name) = none ∧ ds.pop.db.fault = none ∧
      createOrGetDomain ds name =
        ((nextRowId (ds.db.domain.map (fun r => r.id)), none),
          { ds.pop.pop with db := { ds.db.pop.pop with domain :=
            ds.db.domain ++ [⟨nextRowId (ds.db.domain.map (fun r => r.id)), name⟩] } })) := by
  cases hc : ds.domainCache.lookup name with
  | some id =>
    left
    refine ⟨id, rfl, ?_⟩
    simp [createOrGetDomain, getDomainId, hc]
  | none =>
    right
    cases hf : ds.db.fault with
    | some c =>
      left
      refine ⟨c, rfl, rfl, ?_⟩
      simp only [createOrGetDomain, getDomainId, hc, DB.selectDomainId, DB.next_eq, hf]
      simp
      rfl
    | none =>
      right
      cases hd : ds.db.domain.find? (fun r => r.name = name) with
      | some r =>
        left
        have hd2 : ds.db.pop.domain.find? (fun r => r.name = name) = some r := hd
        refine ⟨r, rfl, rfl, rfl, ?_⟩
        simp only [createOrGetDomain, getDomainId, hc, DB.selectDomainId, DB.next_eq, hf, hd2]
        simp
        exact ⟨rfl, rfl⟩
      | none =>
        right
        have hd2 : ds.db.pop.domain.find? (fun r => r.name = name) = none := hd
        cases hf2 : ds.pop.db.fault with
        | some c =>
          left
          have hf3 : ds.db.pop.fault = some c := hf2
          refine ⟨c, rfl, rfl, rfl, rfl, ?_⟩
          simp only [createOrGetDomain, getDomainId, hc, DB.selectDomainId, DB.next_eq, hf, hd2,
            createDomain, DB.insertDomain, hf3]
          simp
          rfl
        | none =>
          right
          have hf3 : ds.db.pop.fault = none := hf2
          refine ⟨rfl, rfl, rfl, rfl, ?_⟩
          simp only [createOrGetDomain, getDomainId, hc, DB.selectDomainId, DB.next_eq, hf, hd2,
            createDomain, DB.insertDomain, hf3]
          simp
          exact ⟨rfl, rfl, rfl, rfl⟩

theorem createOrGetDomain_frame (ds : DataStore) (name : String) :
    (createOrGetDomain ds name).2.db.string = ds.db.string ∧
    (createOrGetDomain ds name).2.db.translation = ds.db.translation ∧
    (createOrGetDomain ds name).2.stringCache = ds.stringCache ∧
    (createOrGetDomain ds name).2.db.language = ds.db.language ∧
    (ds.db.faults = [] →
      (createOrGetDomain ds name).1.2 = none ∧ (createOrGetDomain ds name).2.db.faults = []) := by
  have hp1 : ds.db.faults = [] → ds.db.fault = none := DB.fault_of_no_faults _
  have hp2 : ds.db.faults = [] → ds.pop.db.fault = none := by
    intro hnf
    simp [DB.fault, DataStore.pop, DB.pop, hnf]
  have hq1 : ds.db.faults = [] → ds.pop.db.faults = [] := by
    intro hnf
    show ds.db.faults.tail = []
    simp [hnf]
  have hq2 : ds.db.faults = [] → ds.pop.pop.db.faults = [] := by
    intro hnf
    show ds.db.faults.tail.tail = []
    simp [hnf]
  rcases createOrGetDomain_cases ds name with
    ⟨id, _, h⟩ | ⟨c, _, hf, h⟩ | ⟨r, _, _, _, h⟩ | ⟨c, _, _, _, hf2, h⟩ | ⟨_, _, _, _, h⟩
  · rw [h]
    exact ⟨rfl, rfl, rfl, rfl, fun hnf => ⟨rfl, hnf⟩⟩
  · rw [h]
    refine ⟨rfl, rfl, rfl, rfl, fun hnf => ?_⟩
    rw [hp1 hnf] at hf
    cases hf
  · rw [h]
    exact ⟨rfl, rfl, rfl, rfl, fun hnf => ⟨rfl, hq1 hnf⟩⟩
  · rw [h]
    refine ⟨rfl, rfl, rfl, rfl, fun hnf => ?_⟩
    rw [hp2 hnf] at hf2
    cases hf2
  · rw [h]
    exact ⟨rfl, rfl, rfl, rfl, fun hnf => ⟨rfl, hq2 hnf⟩⟩

theorem DataStore.Inv_of_eq (ds ds1 : DataStore) (hS : ds1.db.string = ds.db.string)
    (hT : ds1.db.translation = ds.db.translation) (hC : ds1.stringCache = ds.stringCache)
    (h : ds.Inv) : ds1.Inv := by
  obtain ⟨h1, h2, h3, h4⟩ := h
  refine ⟨?_, ?_, ?_, ?_⟩
  · unfold DB.TranslationIds
    rw [hT]
    exact h1
  · unfold DB.TranslationUnique
    rw [hT]
    exact h2
  · unfold DB.StringUnique
    rw [hS]
    exact h3
  · intro k v hk
    rw [hC] at hk
    rw [hS]
    exact h4 k v hk

theorem ImportDomain_inv (ds : DataStore) (d : Domain) (h : ds.Inv) :
    (ImportDomain ds d).2.Inv := by
  have hpop : ds.pop.Inv := DataStore.Inv_of_eq ds ds.pop rfl rfl rfl h
  unfold ImportDomain
  rcases hg : getLanguage ds d.Language with ⟨⟨l, e⟩, ds1⟩
  have hs1 : ds1 = ds.pop := by
    have := getLanguage_state ds d.Language
    rw [hg] at this
    exact this
  subst hs1
  cases e with
  | some e => exact hpop
  | none =>
    simp only
    rcases hc : createOrGetDomain ds.pop d.Name with ⟨⟨domId, e2⟩, ds2⟩
    obtain ⟨f1, f2, f3, -, -⟩ := createOrGetDomain_frame ds.pop d.Name
    rw [hc] at f1 f2 f3
    have hI2 : ds2.Inv := DataStore.Inv_of_eq ds.pop ds2 f1 f2 f3 hpop
    cases e2 with
    | some e2 => exact hI2
    | none => exact (importTranslations_inv l domId d.Translations ds2 hI2).1

theorem importTranslations_no_faults (l : Language) (domId : Int) (ts : List Translation) :
    ∀ ds : DataStore, ds.Inv → ds.db.faults = [] →
      (importTranslations l domId ds ts).1 = none ∧
      (importTranslations l domId ds ts).2.db.faults = [] := by
  induction ts with
  | nil =>
    intro ds _ hf
    exact ⟨rfl, hf⟩
  | cons t ts ih =>
    intro ds h hf
    rcases hstep : importTranslation l domId ds t with ⟨e, ds1⟩
    obtain ⟨hI, -, -, -, -, -, hnf⟩ := importTranslation_spec l domId ds t h e ds1 hstep
    obtain ⟨he, hf1, -⟩ := hnf hf
    subst he
    simp only [importTranslations, hstep]
    exact ih ds1 hI hf1

theorem importTranslations_append (l : Language) (domId : Int) (pre post : List Translation) :
    ∀ ds : DataStore, (importTranslations l domId ds pre).1 = none →
      importTranslations l domId ds (pre ++ post) =
        importTranslations l domId (importTranslations l domId ds pre).2 post := by
  induction pre with
  | nil =>
    intro ds _
    rfl
  | cons t ts ih =>
    intro ds h
    rcases hstep : importTranslation l domId ds t with ⟨e, ds1⟩
    simp only [importTranslations, hstep, List.cons_append] at h ⊢
    cases e with
    | some e => simp at h
    | none => exact ih ds1 h

/-- C3: `ImportDomain` keeps table `translation` free of duplicate (string id,
language id) pairs. If before the call no two translation rows share a pair
(ids being the table's primary key), no two string rows share a (domain id,
name) pair, and the string cache agrees with the store, then after the call, for
any domain value and any failure schedule, no two translation rows share a
(string id, language id) pair. -/
theorem ImportDomain_preserves_translation_unique (ds : DataStore) (d : Domain)
    (hPK : ds.db.TranslationIds) (hTU : ds.db.TranslationUnique)
    (hSU : ds.db.StringUnique) (hA : ds.StringCacheAgrees) :
    (ImportDomain ds d).2.db.TranslationUnique :=
  (ImportDomain_inv ds d ⟨hPK, hTU, hSU, hA⟩).2.1

/-! ### The upsert decision -/

theorem importTranslation_decision (l : Language) (domId : Int) (ds : DataStore) (t : Translation)
    (hInv : ds.Inv) (hf : ds.db.faults = []) :
    ∃ after sid, importTranslation l domId ds t = (none, after) ∧
      after.Inv ∧ after.db.faults = [] ∧
      (⟨sid, t.Name, domId⟩ : StringRow) ∈ after.db.string ∧
      (∀ s ∈ ds.db.string, s.name = t.Name → s.domain_id = domId → s.id = sid) ∧
      (∀ r ∈ ds.db.translation, r.string_id = sid → r.language_id = l.Id →
        after.db.translation =
            ds.db.translation.map (fun x => if x = r then { r with content := t.Content } else x) ∧
          after.db.translation.length = ds.db.translation.length) ∧
      ((∀ r ∈ ds.db.translation, ¬ (r.string_id = sid ∧ r.language_id = l.Id)) →
        after.db.translation = ds.db.translation ++
          [⟨nextRowId (ds.db.translation.map (fun r => r.id)), sid, l.Id, t.Content⟩]) := by
  rcases hstep : importTranslation l domId ds t with ⟨e, ds1⟩
  obtain ⟨hI, -, -, -, hS, -, hnf⟩ := importTranslation_spec l domId ds t hInv e ds1 hstep
  obtain ⟨he, hf1, sid, hmem, hout⟩ := hnf hf
  subst he
  refine ⟨ds1, sid, rfl, hI, hf1, hmem, ?_, ?_, ?_⟩
  · intro s hs hn hd
    have hs1 : s ∈ ds1.db.string := by
      rcases hS with h1 | ⟨_, h1⟩
      · rw [h1]
        exact hs
      · rw [h1]
        exact List.mem_append_left _ hs
    have : s = ⟨sid, t.Name, domId⟩ := by
      apply List.inj_on_of_nodup_map hI.2.2.1 hs1 hmem
      simp [StringRow.key, hn, hd]
    rw [this]
  · intro r hr h1 h2
    rcases hout with ⟨r1, hr1, h3, h4, h5⟩ | ⟨hno, _⟩
    · have : r1 = r := by
        apply List.inj_on_of_nodup_map hInv.2.1 hr1 hr
        simp [TranslationRow.key, h1, h2, h3, h4]
      subst this
      exact ⟨h5, by rw [h5, List.length_map]⟩
    · exact absurd ⟨h1, h2⟩ (hno r hr)
  · intro hno
    rcases hout with ⟨r1, hr1, h3, h4, _⟩ | ⟨_, h5⟩
    · exact absurd ⟨h3, h4⟩ (hno r1 hr1)
    · exact h5

theorem ImportDomain_eq_loop (ds : DataStore) (d : Domain) (l : Language)
    (hf : ds.db.faults = [])
    (hl : ds.db.language.find? (fun x => x.Code = d.Language) = some l) :
    (createOrGetDomain ds d.Name).1.2 = none ∧
    ImportDomain ds d =
      importTranslations l (createOrGetDomain ds d.Name).1.1 (createOrGetDomain ds d.Name).2
        d.Translations := by
  have hg : getLanguage ds d.Language = ((l, none), ds) := by
    rcases getLanguage_cases ds d.Language with ⟨c, h1, _⟩ | ⟨l1, _, h2, h3⟩ | ⟨_, h2, _⟩
    · rw [DB.fault_of_no_faults _ hf] at h1
      cases h1
    · rw [hl] at h2
      cases h2
      rw [h3, DataStore.pop_of_no_faults ds hf]
    · rw [hl] at h2
      cases h2
  obtain ⟨-, -, -, -, hnf⟩ := createOrGetDomain_frame ds d.Name
  obtain ⟨he, -⟩ := hnf hf
  refine ⟨he, ?_⟩
  unfold ImportDomain
  rw [hg]
  simp only
  rcases hc : createOrGetDomain ds d.Name with ⟨⟨domId, e2⟩, ds2⟩
  rw [hc] at he
  simp only at he
  subst he
  rfl

/-- C2: the upsert decision of `ImportDomain`. Take a DataStore whose store
satisfies its key constraints and whose string cache agrees with it, no
statement failing, the domain's language registered, and any translation `t` of
the imported domain (`pre` before it, `post` after it). Let `before` and
`after` be the states around the loop iteration for `t`, and `sid` the id of
the string row named `t.Name` in the domain (the existing row, or the one this
iteration creates). If `before` holds a translation row `r` for `sid` and the
language, `after` has the same rows except that `r` has `t.Content` as
content (same id, string and language, same number of rows). If it holds none,
`after` has exactly one more row, for `(sid, language)` with `t.Content`. -/
theorem ImportDomain_upsert_decision (ds : DataStore) (d : Domain) (l : Language)
    (pre : List Translation) (t : Translation) (post : List Translation)
    (hInv : ds.Inv) (hf : ds.db.faults = [])
    (hl : ds.db.language.find? (fun x => x.Code = d.Language) = some l)
    (hd : d.Translations = pre ++ t :: post) :
    ∃ domId before after sid,
      (createOrGetDomain ds d.Name).1 = (domId, none) ∧
      importTranslations l domId (createOrGetDomain ds d.Name).2 pre = (none, before) ∧
      importTranslation l domId before t = (none, after) ∧
      ImportDomain ds d = importTranslations l domId after post ∧
      (⟨sid, t.Name, domId⟩ : StringRow) ∈ after.db.string ∧
      (∀ s ∈ before.db.string, s.name = t.Name → s.domain_id = domId → s.id = sid) ∧
      (∀ r ∈ before.db.translation, r.string_id = sid → r.language_id = l.Id →
        after.db.translation =
            before.db.translation.map
              (fun x => if x = r then { r with content := t.Content } else x) ∧
          after.db.translation.length = before.db.translation.length) ∧
      ((∀ r ∈ before.db.translation, ¬ (r.string_id = sid ∧ r.language_id = l.Id)) →
        after.db.translation = before.db.translation ++
          [⟨nextRowId (before.db.translation.map (fun r => r.id)), sid, l.Id, t.Content⟩]) := by
  obtain ⟨he, hrun⟩ := ImportDomain_eq_loop ds d l hf hl
  obtain ⟨f1, f2, f3, -, hnf⟩ := createOrGetDomain_frame ds d.Name
  rcases hc : createOrGetDomain ds d.Name with ⟨⟨domId, e2⟩, ds2⟩
  rw [hc] at he hrun f1 f2 f3 hnf
  simp only at he hrun
  subst he
  have hI2 : ds2.Inv := DataStore.Inv_of_eq ds ds2 f1 f2 f3 hInv
  have hf2 : ds2.db.faults = [] := (hnf hf).2
  obtain ⟨hpe, hpf⟩ := importTranslations_no_faults l domId pre ds2 hI2 hf2
  have hpI := (importTranslations_inv l domId pre ds2 hI2).1
  rcases hp : importTranslations l domId ds2 pre with ⟨e, before⟩
  rw [hp] at hpe hpf hpI
  simp only at hpe hpf hpI
  subst hpe
  obtain ⟨after, sid, hstep, -, -, hmem, h1, h2, h3⟩ :=
    importTranslation_decision l domId before t hpI hpf
  refine ⟨domId, before, after, sid, rfl, hp, hstep, ?_, hmem, h1, h2, h3⟩
  rw [hrun, hd, importTranslations_append l domId pre (t :: post) ds2 (by rw [hp]), hp]
  simp only [importTranslations, hstep]

/-! ### Idempotence of the import -/

theorem importTranslation_ok (l : Language) (domId : Int) (ds : DataStore) (t : Translation)
    (hInv : ds.Inv) (hf : ds.db.faults = []) :
    ∃ ds1 sid, importTranslation l domId ds t = (none, ds1) ∧
      ds1.Inv ∧ ds1.db.faults = [] ∧
      ds1.db.language = ds.db.language ∧ ds1.db.domain = ds.db.domain ∧
      ds1.domainCache = ds.domainCache ∧
      (∀ s ∈ ds.db.string, s ∈ ds1.db.string) ∧
      (⟨sid, t.Name, domId⟩ : StringRow) ∈ ds1.db.string ∧
      ((∃ s ∈ ds.db.string, s.name = t.Name ∧ s.domain_id = domId) →
        ds1.db.string = ds.db.string) ∧
      UpsertOutcome ds.db.translation ds1.db.translation sid l.Id t.Content := by
  rcases hstep : importTranslation l domId ds t with ⟨e, ds1⟩
  obtain ⟨hI, hL, hD, hDC, hS, -, hnf⟩ := importTranslation_spec l domId ds t hInv e ds1 hstep
  obtain ⟨he, hf1, sid, hmem, hout⟩ := hnf hf
  subst he
  refine ⟨ds1, sid, rfl, hI, hf1, hL, hD, hDC, ?_, hmem, ?_, hout⟩
  · intro s hs
    rcases hS with h1 | ⟨_, h1⟩
    · rw [h1]
      exact hs
    · rw [h1]
      exact List.mem_append_left _ hs
  · rintro ⟨s, hs, hn, hd⟩
    rcases hS with h1 | ⟨hno, _⟩
    · exact h1
    · exact absurd ⟨hn, hd⟩ (hno s hs)

theorem hits_iff (strs : List StringRow) (domId lang sid : Int) (t : Translation)
    (x : TranslationRow) (hSU : (strs.map StringRow.key).Nodup)
    (hmem : (⟨sid, t.Name, domId⟩ : StringRow) ∈ strs) :
    Hits strs domId lang t x ↔ x.string_id = sid ∧ x.language_id = lang := by
  constructor
  · rintro ⟨h1, h2⟩
    have := List.inj_on_of_nodup_map hSU h1 hmem (by simp [StringRow.key])
    simp only [StringRow.mk.injEq] at this
    exact ⟨this.1, h2⟩
  · rintro ⟨h1, h2⟩
    exact ⟨h1 ▸ hmem, h2⟩

theorem hits_mono (strs strs1 : List StringRow) (domId lang : Int) (t : Translation)
    (x : TranslationRow) (hsub : ∀ s ∈ strs, s ∈ strs1) (h : Hits strs domId lang t x) :
    Hits strs1 domId lang t x :=
  ⟨hsub _ h.1, h.2⟩

theorem hits_content (strs : List StringRow) (domId lang : Int) (t : Translation)
    (x : TranslationRow) (c : String) :
    Hits strs domId lang t { x with content := c } ↔ Hits strs domId lang t x :=
  Iff.rfl

theorem rowFold_nohit (strs : List StringRow) (domId lang : Int) (ts : List Translation) :
    ∀ x : TranslationRow, (∀ t ∈ ts, ¬ Hits strs domId lang t x) →
      rowFold strs domId lang ts x = x := by
  induction ts with
  | nil => intro x _; rfl
  | cons t ts ih =>
    intro x h
    have h1 : ¬ Hits strs domId lang t x := h t (List.mem_cons_self _ _)
    have h2 : rowAfter strs domId lang x t = x := by simp [rowAfter, h1]
    simp only [rowFold, List.foldl_cons, h2]
    exact ih x (fun t1 ht1 => h t1 (List.mem_cons_of_mem _ ht1))

theorem rowFold_overwrite (strs : List StringRow) (domId lang : Int) (ts : List Translation) :
    ∀ (x : TranslationRow) (c : String), (∃ t ∈ ts, Hits strs domId lang t x) →
      rowFold strs domId lang ts { x with content := c } = rowFold strs domId lang ts x := by
  induction ts with
  | nil =>
    intro x c h
    obtain ⟨t, ht, _⟩ := h
    cases ht
  | cons t ts ih =>
    intro x c h
    simp only [rowFold, List.foldl_cons]
    by_cases h1 : Hits strs domId lang t x
    · have h2 : Hits strs domId lang t { x with content := c } := h1
      simp [rowAfter, h1, h2]
    · have h2 : ¬ Hits strs domId lang t { x with content := c } := h1
      have h3 : rowAfter strs domId lang x t = x := by simp [rowAfter, h1]
      have h4 : rowAfter strs domId lang { x with content := c } t = { x with content := c } := by
        simp [rowAfter, h2]
      rw [h3, h4]
      apply ih x c
      obtain ⟨t1, ht1, hh⟩ := h
      rcases List.mem_cons.mp ht1 with rfl | ht1
      · exact absurd hh h1
      · exact ⟨t1, ht1, hh⟩

theorem outcome_keys (T T1 : List TranslationRow) (sid lang : Int) (c : String)
    (h : UpsertOutcome T T1 sid lang c) :
    ∀ r ∈ T, ∃ r1 ∈ T1, r1.string_id = r.string_id ∧ r1.language_id = r.language_id := by
  intro r hr
  rcases h with ⟨r0, _, _, _, h5⟩ | ⟨_, h5⟩
  · subst h5
    refine ⟨if r = r0 then { r0 with content := c } else r, List.mem_map.mpr ⟨r, hr, rfl⟩, ?_⟩
    by_cases hx : r = r0
    · simp [hx]
    · simp [hx]
  · subst h5
    exact ⟨r, List.mem_append_left _ hr, rfl, rfl⟩

theorem outcome_has (T T1 : List TranslationRow) (sid lang : Int) (c : String)
    (h : UpsertOutcome T T1 sid lang c) :
    ∃ r ∈ T1, r.string_id = sid ∧ r.language_id = lang := by
  rcases h with ⟨r0, hr0, h3, h4, h5⟩ | ⟨_, h5⟩
  · subst h5
    exact ⟨{ r0 with content := c }, List.mem_map.mpr ⟨r0, hr0, by simp⟩, h3, h4⟩
  · subst h5
    exact ⟨_, List.mem_append_right _ (List.mem_singleton.mpr rfl), rfl, rfl⟩

theorem outcome_content (T T1 : List TranslationRow) (sid lang : Int) (c : String)
    (hTU : (T.map TranslationRow.key).Nodup) (h : UpsertOutcome T T1 sid lang c) :
    ∀ x ∈ T1, x.string_id = sid → x.language_id = lang → x.content = c := by
  intro x hx h1 h2
  rcases h with ⟨r0, hr0, h3, h4, h5⟩ | ⟨hno, h5⟩
  · subst h5
    obtain ⟨y, hy, rfl⟩ := List.mem_map.mp hx
    by_cases hyr : y = r0
    · simp [hyr]
    · simp only [hyr, if_false] at h1 h2
      exact absurd (List.inj_on_of_nodup_map hTU hy hr0
        (by simp [TranslationRow.key, h1, h2, h3, h4])) hyr
  · subst h5
    rcases List.mem_append.mp hx with hx | hx
    · exact absurd ⟨h1, h2⟩ (hno x hx)
    · rw [List.mem_singleton.mp hx]

theorem outcome_frame (T T1 : List TranslationRow) (sid lang : Int) (c : String)
    (h : UpsertOutcome T T1 sid lang c) :
    ∀ x ∈ T1, ¬ (x.string_id = sid ∧ x.language_id = lang) → x ∈ T := by
  intro x hx hk
  rcases h with ⟨r0, _, h3, h4, h5⟩ | ⟨_, h5⟩
  · subst h5
    obtain ⟨y, hy, rfl⟩ := List.mem_map.mp hx
    by_cases hyr : y = r0
    · simp only [hyr, if_true] at hk
      exact absurd ⟨h3, h4⟩ hk
    · simp only [hyr, if_false]
      exact hy
  · subst h5
    rcases List.mem_append.mp hx with hx | hx
    · exact hx
    · rw [List.mem_singleton.mp hx] at hk
      exact absurd ⟨rfl, rfl⟩ hk

theorem outcome_present (T T1 : List TranslationRow) (sid lang : Int) (c : String)
    (hTU : (T.map TranslationRow.key).Nodup) (h : UpsertOutcome T T1 sid lang c)
    (hex : ∃ r ∈ T, r.string_id = sid ∧ r.language_id = lang) :
    T1 = T.map (fun x =>
      if x.string_id = sid ∧ x.language_id = lang then { x with content := c } else x) := by
  rcases h with ⟨r0, hr0, h3, h4, h5⟩ | ⟨hno, _⟩
  · subst h5
    apply List.map_congr_left
    intro x hx
    by_cases hxr : x = r0
    · subst hxr
      simp [h3, h4]
    · have : ¬ (x.string_id = sid ∧ x.language_id = lang) := by
        rintro ⟨h1, h2⟩
        exact hxr (List.inj_on_of_nodup_map hTU hx hr0
          (by simp [TranslationRow.key, h1, h2, h3, h4]))
      simp [hxr, this]
  · obtain ⟨r, hr, hk⟩ := hex
    exact absurd hk (hno r hr)

theorem importTranslations_mono (l : Language) (domId : Int) (ts : List Translation) :
    ∀ ds : DataStore, ds.Inv → ds.db.faults = [] →
      (∀ s ∈ ds.db.string, s ∈ (importTranslations l domId ds ts).2.db.string) ∧
      (∀ r ∈ ds.db.translation, ∃ r1 ∈ (importTranslations l domId ds ts).2.db.translation,
        r1.string_id = r.string_id ∧ r1.language_id = r.language_id) := by
  induction ts with
  | nil =>
    intro ds _ _
    exact ⟨fun s hs => hs, fun r hr => ⟨r, hr, rfl, rfl⟩⟩
  | cons t ts ih =>
    intro ds hInv hf
    obtain ⟨ds1, sid, hstep, hI, hf1, -, -, -, hsub, -, -, hout⟩ :=
      importTranslation_ok l domId ds t hInv hf
    simp only [importTranslations, hstep]
    obtain ⟨ih1, ih2⟩ := ih ds1 hI hf1
    refine ⟨fun s hs => ih1 s (hsub s hs), ?_⟩
    intro r hr
    obtain ⟨r1, hr1, h1, h2⟩ := outcome_keys _ _ _ _ _ hout r hr
    obtain ⟨r2, hr2, h3, h4⟩ := ih2 r1 hr1
    exact ⟨r2, hr2, h3.trans h1, h4.trans h2⟩

theorem importTranslations_present (l : Language) (domId : Int) (ts : List Translation) :
    ∀ ds : DataStore, ds.Inv → ds.db.faults = [] →
      ∀ t ∈ ts, Present (importTranslations l domId ds ts).2 domId l.Id t := by
  induction ts with
  | nil =>
    intro ds _ _ t ht
    cases ht
  | cons t0 ts ih =>
    intro ds hInv hf t ht
    obtain ⟨ds1, sid, hstep, hI, hf1, -, -, -, -, hmem, -, hout⟩ :=
      importTranslation_ok l domId ds t0 hInv hf
    simp only [importTranslations, hstep]
    rcases List.mem_cons.mp ht with rfl | ht
    · obtain ⟨m1, m2⟩ := importTranslations_mono l domId ts ds1 hI hf1
      obtain ⟨r, hr, h1, h2⟩ := outcome_has _ _ _ _ _ hout
      obtain ⟨r1, hr1, h3, h4⟩ := m2 r hr
      exact ⟨sid, m1 _ hmem, r1, hr1, h3.trans h1, h4.trans h2⟩
    · exact ih ds1 hI hf1 t ht

theorem importTranslations_frame (l : Language) (domId : Int) (ts : List Translation) :
    ∀ ds : DataStore, ds.Inv → ds.db.faults = [] →
      ∀ x ∈ (importTranslations l domId ds ts).2.db.translation,
        (∀ t ∈ ts, ¬ Hits (importTranslations l domId ds ts).2.db.string domId l.Id t x) →
        x ∈ ds.db.translation := by
  induction ts with
  | nil =>
    intro ds _ _ x hx _
    exact hx
  | cons t ts ih =>
    intro ds hInv hf x hx hno
    obtain ⟨ds1, sid, hstep, hI, hf1, -, -, -, -, hmem, -, hout⟩ :=
      importTranslation_ok l domId ds t hInv hf
    simp only [importTranslations, hstep] at hx hno
    have hx1 : x ∈ ds1.db.translation :=
      ih ds1 hI hf1 x hx (fun t1 ht1 => hno t1 (List.mem_cons_of_mem _ ht1))
    have hIF := (importTranslations_inv l domId ts ds1 hI).1
    have hmemF := (importTranslations_mono l domId ts ds1 hI hf1).1 _ hmem
    have hk : ¬ (x.string_id = sid ∧ x.language_id = l.Id) := fun hk =>
      hno t (List.mem_cons_self _ _) ((hits_iff _ _ _ _ _ _ hIF.2.2.1 hmemF).mpr hk)
    exact outcome_frame _ _ _ _ _ hout x hx1 hk

theorem importTranslations_fixed (l : Language) (domId : Int) (ts : List Translation) :
    ∀ ds : DataStore, ds.Inv → ds.db.faults = [] →
      ∀ x ∈ (importTranslations l domId ds ts).2.db.translation,
        rowFold (importTranslations l domId ds ts).2.db.string domId l.Id ts x = x := by
  induction ts with
  | nil =>
    intro ds _ _ x _
    rfl
  | cons t ts ih =>
    intro ds hInv hf x hx
    obtain ⟨ds1, sid, hstep, hI, hf1, -, -, -, -, hmem, -, hout⟩ :=
      importTranslation_ok l domId ds t hInv hf
    simp only [importTranslations, hstep] at hx ⊢
    have hIH := ih ds1 hI hf1 x hx
    have hIF := (importTranslations_inv l domId ts ds1 hI).1
    have hmemF := (importTranslations_mono l domId ts ds1 hI hf1).1 _ hmem
    simp only [rowFold, List.foldl_cons]
    by_cases h1 : Hits (importTranslations l domId ds1 ts).2.db.string domId l.Id t x
    · have h2 : rowAfter (importTranslations l domId ds1 ts).2.db.string domId l.Id x t
          = { x with content := t.Content } := by simp [rowAfter, h1]
      rw [h2]
      by_cases h3 : ∃ t1 ∈ ts, Hits (importTranslations l domId ds1 ts).2.db.string domId l.Id t1 x
      · rw [← hIH]
        simp only [rowFold, List.foldl_cons] at hIH ⊢
        rw [hIH]
        have := rowFold_overwrite (importTranslations l domId ds1 ts).2.db.string domId l.Id ts
          x t.Content h3
        simp only [rowFold] at this
        rw [this]
        exact hIH
      · have hno : ∀ t1 ∈ ts,
            ¬ Hits (importTranslations l domId ds1 ts).2.db.string domId l.Id t1 x :=
          fun t1 ht1 hh => h3 ⟨t1, ht1, hh⟩
        have hx1 : x ∈ ds1.db.translation := importTranslations_frame l domId ts ds1 hI hf1 x hx hno
        have hk := (hits_iff _ _ _ _ _ _ hIF.2.2.1 hmemF).mp h1
        have hc : x.content = t.Content :=
          outcome_content _ _ _ _ _ hInv.2.1 hout x hx1 hk.1 hk.2
        have hxe : ({ x with content := t.Content } : TranslationRow) = x := by
          cases x
          simp only at hc
          subst hc
          rfl
        rw [hxe]
        exact hIH
    · have h2 : rowAfter (importTranslations l domId ds1 ts).2.db.string domId l.Id x t = x := by
        simp [rowAfter, h1]
      rw [h2]
      exact hIH

theorem importTranslations_saturated (l : Language) (domId : Int) (ts : List Translation) :
    ∀ ds : DataStore, ds.Inv → ds.db.faults = [] →
      (∀ t ∈ ts, Present ds domId l.Id t) →
      (importTranslations l domId ds ts).1 = none ∧
      (importTranslations l domId ds ts).2.db.string = ds.db.string ∧
      (importTranslations l domId ds ts).2.db.translation =
        ds.db.translation.map (rowFold ds.db.string domId l.Id ts) := by
  induction ts with
  | nil =>
    intro ds _ _ _
    refine ⟨rfl, rfl, ?_⟩
    have h : ds.db.translation.map (rowFold ds.db.string domId l.Id []) = ds.db.translation := by
      conv_rhs => rw [← List.map_id ds.db.translation]
      apply List.map_congr_left
      intro x _
      rfl
    exact h.symm
  | cons t ts ih =>
    intro ds hInv hf hP
    obtain ⟨ds1, sid, hstep, hI, hf1, -, -, -, -, hmem, hsame, hout⟩ :=
      importTranslation_ok l domId ds t hInv hf
    obtain ⟨sid0, hmem0, r, hr, hr1, hr2⟩ := hP t (List.mem_cons_self _ _)
    have hS : ds1.db.string = ds.db.string := hsame ⟨_, hmem0, rfl, rfl⟩
    rw [hS] at hmem
    have hsid : sid0 = sid := by
      have := List.inj_on_of_nodup_map hInv.2.2.1 hmem0 hmem (by simp [StringRow.key])
      simp only [StringRow.mk.injEq] at this
      exact this.1
    subst hsid
    have hT : ds1.db.translation =
        ds.db.translation.map (fun x => rowAfter ds.db.string domId l.Id x t) := by
      rw [outcome_present _ _ _ _ _ hInv.2.1 hout ⟨r, hr, hr1, hr2⟩]
      apply List.map_congr_left
      intro x _
      by_cases hk : x.string_id = sid0 ∧ x.language_id = l.Id
      · have := (hits_iff _ _ _ _ _ x hInv.2.2.1 hmem).mpr hk
        simp [rowAfter, hk, this]
      · have : ¬ Hits ds.db.string domId l.Id t x :=
          fun hh => hk ((hits_iff _ _ _ _ _ x hInv.2.2.1 hmem).mp hh)
        simp [rowAfter, hk, this]
    have hP1 : ∀ t1 ∈ ts, Present ds1 domId l.Id t1 := by
      intro t1 ht1
      obtain ⟨s1, hs1, r1, hr1, hk1, hk2⟩ := hP t1 (List.mem_cons_of_mem _ ht1)
      obtain ⟨r2, hr2, h3, h4⟩ := outcome_keys _ _ _ _ _ hout r1 hr1
      exact ⟨s1, hS ▸ hs1, r2, hr2, h3.trans hk1, h4.trans hk2⟩
    obtain ⟨i1, i2, i3⟩ := ih ds1 hI hf1 hP1
    simp only [importTranslations, hstep]
    refine ⟨i1, i2.trans hS, ?_⟩
    rw [i3, hT, hS, List.map_map]
    apply List.map_congr_left
    intro x _
    simp [rowFold]

theorem createOrGetDomain_again (ds : DataStore) (name : String) (hf : ds.db.faults = [])
    (ds3 : DataStore)
    (hD : ds3.db.domain = (createOrGetDomain ds name).2.db.domain)
    (hC : ds3.domainCache = (createOrGetDomain ds name).2.domainCache)
    (hf3 : ds3.db.faults = []) :
    (createOrGetDomain ds3 name).1 = ((createOrGetDomain ds name).1.1, none) := by
  have hp1 : ds.db.fault = none := DB.fault_of_no_faults _ hf
  have hp2 : ds.pop.db.fault = none := by
    simp [DB.fault, DataStore.pop, DB.pop, hf]
  have hq1 : ds3.db.fault = none := DB.fault_of_no_faults _ hf3
  have hq2 : ds3.pop.db.fault = none := by
    simp [DB.fault, DataStore.pop, DB.pop, hf3]
  rcases createOrGetDomain_cases ds name with
    ⟨id, hc, h⟩ | ⟨c, _, hfa, _⟩ | ⟨r, hc, _, hfind, h⟩ | ⟨c, _, _, _, hfa, _⟩ |
      ⟨hc, _, hfind, _, h⟩
  · rw [h] at hD hC ⊢
    simp only at hD hC
    rcases createOrGetDomain_cases ds3 name with
      ⟨id3, hc3, h3⟩ | ⟨c, hc3, _, _⟩ | ⟨r, hc3, _, _, _⟩ | ⟨c, hc3, _, _, _, _⟩ |
        ⟨hc3, _, _, _, _⟩
    · rw [h3]
      rw [hC, hc] at hc3
      cases hc3
      rfl
    all_goals (rw [hC, hc] at hc3; cases hc3)
  · rw [hp1] at hfa
    cases hfa
  · rw [h] at hD hC ⊢
    simp only at hD hC
    have hl : ds3.domainCache.lookup name = some r.id := by
      rw [hC]
      simp [List.lookup_cons]
    rcases createOrGetDomain_cases ds3 name with
      ⟨id3, hc3, h3⟩ | ⟨c, hc3, _, _⟩ | ⟨r, hc3, _, _, _⟩ | ⟨c, hc3, _, _, _, _⟩ |
        ⟨hc3, _, _, _, _⟩
    · rw [h3]
      rw [hl] at hc3
      cases hc3
      rfl
    all_goals (rw [hl] at hc3; cases hc3)
  · rw [hp2] at hfa
    cases hfa
  · rw [h] at hD hC ⊢
    simp only at hD hC
    have hfind3 : ds3.db.domain.find? (fun r => r.name = name)
        = some ⟨nextRowId (ds.db.domain.map (fun r => r.id)), name⟩ := by
      rw [hD]
      show List.find? _ (ds.db.domain ++ _) = _
      rw [List.find?_append, hfind]
      simp
    rcases createOrGetDomain_cases ds3 name with
      ⟨id3, hc3, _⟩ | ⟨c, _, hfa, _⟩ | ⟨r, _, _, hfr, h3⟩ | ⟨c, _, _, hfr, _, _⟩ |
        ⟨_, _, hfr, _, _⟩
    · rw [hC] at hc3
      have : ds.pop.pop.domainCache.lookup name = none := hc
      rw [this] at hc3
      cases hc3
    · rw [hq1] at hfa
      cases hfa
    · rw [hfind3] at hfr
      cases hfr
      rw [h3]
    · rw [hfind3] at hfr
      cases hfr
    · rw [hfind3] at hfr
      cases hfr

theorem find_language (langs : List Language) (code : String)
    (h : ∃ x ∈ langs, x.Code = code) :
    ∃ l, langs.find? (fun x => x.Code = code) = some l := by
  cases hfind : langs.find? (fun x => x.Code = code) with
  | some l => exact ⟨l, rfl⟩
  | none =>
    obtain ⟨x, hx, hc⟩ := h
    have := List.find?_eq_none.mp hfind x hx
    simp [hc] at this

/-- C1: importing the same domain value twice leaves the same translation rows
as importing it once. For every DataStore whose store satisfies its key
constraints and whose string cache agrees with it (no external mutation), with
the domain's language registered and no statement failing, both runs of
`ImportDomain` return nil and table `translation` after the second run equals,
row by row (ids, string, language, content, count), the table after the first. -/
theorem ImportDomain_idempotent (ds : DataStore) (d : Domain)
    (hInv : ds.Inv) (hf : ds.db.faults = [])
    (hl : ∃ x ∈ ds.db.language, x.Code = d.Language) :
    (ImportDomain ds d).1 = none ∧
    (ImportDomain (ImportDomain ds d).2 d).1 = none ∧
    (ImportDomain (ImportDomain ds d).2 d).2.db.translation
      = (ImportDomain ds d).2.db.translation := by
  obtain ⟨l, hfind⟩ := find_language _ _ hl
  obtain ⟨he, hrun⟩ := ImportDomain_eq_loop ds d l hf hfind
  obtain ⟨f1, f2, f3, f4, hnf⟩ := createOrGetDomain_frame ds d.Name
  have hagain := createOrGetDomain_again ds d.Name hf
  rcases hc : createOrGetDomain ds d.Name with ⟨⟨domId, e2⟩, ds2⟩
  rw [hc] at he hrun f1 f2 f3 f4 hnf hagain
  simp only at he hrun f1 f2 f3 f4 hagain
  subst he
  have hI2 : ds2.Inv := DataStore.Inv_of_eq ds ds2 f1 f2 f3 hInv
  have hf2 : ds2.db.faults = [] := (hnf hf).2
  obtain ⟨hpe, hpf⟩ := importTranslations_no_faults l domId d.Translations ds2 hI2 hf2
  obtain ⟨hpI, hpL, hpD, hpC⟩ := importTranslations_inv l domId d.Translations ds2 hI2
  have hpP := importTranslations_present l domId d.Translations ds2 hI2 hf2
  have hfix := importTranslations_fixed l domId d.Translations ds2 hI2 hf2
  rw [← hrun] at hpe hpf hpI hpL hpD hpC hpP hfix
  -- the second run
  have hfind1 : (ImportDomain ds d).2.db.language.find? (fun x => x.Code = d.Language) = some l := by
    rw [hpL, f4]
    exact hfind
  obtain ⟨-, hrun1⟩ := ImportDomain_eq_loop (ImportDomain ds d).2 d l hpf hfind1
  obtain ⟨g1, g2, g3, -, hnf1⟩ := createOrGetDomain_frame (ImportDomain ds d).2 d.Name
  have hdom := hagain (ImportDomain ds d).2 hpD hpC hpf
  rcases hc1 : createOrGetDomain (ImportDomain ds d).2 d.Name with ⟨⟨domId1, e3⟩, ds3⟩
  rw [hc1] at hrun1 g1 g2 g3 hnf1 hdom
  simp only [Prod.mk.injEq] at hrun1 g1 g2 g3 hdom
  obtain ⟨rfl, rfl⟩ := hdom
  have hI3 : ds3.Inv := DataStore.Inv_of_eq _ ds3 g1 g2 g3 hpI
  have hf3 : ds3.db.faults = [] := (hnf1 hpf).2
  have hP3 : ∀ t ∈ d.Translations, Present ds3 domId1 l.Id t := by
    intro t ht
    obtain ⟨sid, hs, r, hr, hk⟩ := hpP t ht
    exact ⟨sid, g1 ▸ hs, r, g2 ▸ hr, hk⟩
  obtain ⟨s1, -, s3⟩ := importTranslations_saturated l domId1 d.Translations ds3 hI3 hf3 hP3
  rw [← hrun1] at s1 s3
  refine ⟨hpe, s1, ?_⟩
  rw [s3, g1, g2]
  conv_rhs => rw [← List.map_id (ImportDomain ds d).2.db.translation]
  apply List.map_congr_left
  intro x hx
  exact hfix x hx

/-! ### ImportDir -/

theorem importFiles_spec (env : Env) (files : List String) :
    ∀ (ds : DataStore) (i : Nat) (sent : List String),
      (importFiles env ds files i sent).2.2
        = sent ++ (completedFiles env ds files).map env.Base ∧
      (completedFiles env ds files) <+: files ∧
      ((importFiles env ds files i sent).1 = none → completedFiles env ds files = files) ∧
      (∀ j e, (importFiles env ds files i sent).1 = some (j, e) →
        j = i + (completedFiles env ds files).length ∧
        (completedFiles env ds files).length < files.length) := by
  induction files with
  | nil =>
    intro ds i sent
    simp [importFiles, completedFiles]
  | cons file rest ih =>
    intro ds i sent
    rcases hp : env.NewFromFile file with ⟨x, pe⟩
    cases pe with
    | some e => simp [importFiles, completedFiles, hp]
    | none =>
      rcases hi : ImportDomain ds x with ⟨ie, ds1⟩
      cases ie with
      | some e => simp [importFiles, completedFiles, hp, hi]
      | none =>
        obtain ⟨h1, h2, h3, h4⟩ := ih ds1 (i + 1) (sent ++ [env.Base file])
        simp only [importFiles, completedFiles, hp, hi]
        refine ⟨?_, ?_, ?_, ?_⟩
        · rw [h1]
          simp
        · obtain ⟨t, ht⟩ := h2
          exact ⟨t, by simp [ht]⟩
        · intro hn
          rw [h3 hn]
        · intro j e hje
          obtain ⟨h5, h6⟩ := h4 j e hje
          refine ⟨?_, ?_⟩
          · rw [h5]
            simp only [List.length_cons]
            omega
          · simp only [List.length_cons]
            omega

/-- C7: the values `ImportDir` sends on `notify`. When the listing fails the
run returns `(0, nil)` and sends nothing. Otherwise the values sent are the
base names of the files that completed successfully, one per file in listing
order (these files are a prefix of the listing), their number is the returned
count, and the returned error is nil exactly when every listed file completed,
in which case the count is the number of files. -/
theorem ImportDir_notifications (env : Env) (ds : DataStore) (dir : String) :
    match env.Glob (env.Join dir "*.xliff") with
    | (_, some _) => ImportDir env ds dir = ((0, none), ds, [])
    | (files, none) =>
      (ImportDir env ds dir).2.2 = (completedFiles env ds files).map env.Base ∧
      (completedFiles env ds files) <+: files ∧
      (ImportDir env ds dir).1.1 = (completedFiles env ds files).length ∧
      (ImportDir env ds dir).2.2.length = (ImportDir env ds dir).1.1 ∧
      ((ImportDir env ds dir).1.2 = none ↔ completedFiles env ds files = files) := by
  rcases hg : env.Glob (env.Join dir "*.xliff") with ⟨files, ge⟩
  cases ge with
  | some e => simp [ImportDir, hg]
  | none =>
    simp only
    obtain ⟨h1, h2, h3, h4⟩ := importFiles_spec env files ds 0 []
    rcases hr : importFiles env ds files 0 [] with ⟨r, ds1, sent⟩
    rw [hr] at h1 h3 h4
    simp only [List.nil_append] at h1 h3 h4
    cases r with
    | none =>
      have hc := h3 rfl
      simp only [ImportDir, hg, hr]
      refine ⟨h1, h2, ?_, ?_, ?_⟩
      · rw [hc]
      · rw [h1, hc, List.length_map]
      · simp [hc]
    | some je =>
      obtain ⟨j, e⟩ := je
      obtain ⟨h5, h6⟩ := h4 j e rfl
      simp only [ImportDir, hg, hr]
      refine ⟨h1, h2, ?_, ?_, ?_⟩
      · rw [h5]
        omega
      · rw [h1, List.length_map, h5]
        omega
      · constructor
        · intro hn
          cases hn
        · intro hc
          rw [hc] at h6
          omega

/-! ### The missing-language guard -/

/-- C8, the guard as the code has it: for every domain value whose language code is not registered,
`ImportDomain` returns a non-nil error that is not `sql.ErrNoRows` (the value
the server takes for "not found"): the new error "Language '<code>' does not
exist in database" when the lookup statement runs, the store error when the
lookup itself fails. The tables and both caches are as before the call. -/
theorem ImportDomain_missing_language (ds : DataStore) (d : Domain)
    (h : ∀ x ∈ ds.db.language, x.Code ≠ d.Language) :
    (∃ e, (ImportDomain ds d).1 = some e ∧ e.isNotFound = false ∧
      (ds.db.fault = none → e = Error.New (languageMissing d.Language))) ∧
    (ImportDomain ds d).2.db.language = ds.db.language ∧
    (ImportDomain ds d).2.db.domain = ds.db.domain ∧
    (ImportDomain ds d).2.db.string = ds.db.string ∧
    (ImportDomain ds d).2.db.translation = ds.db.translation ∧
    (ImportDomain ds d).2.domainCache = ds.domainCache ∧
    (ImportDomain ds d).2.stringCache = ds.stringCache := by
  have hnone : ds.db.language.find? (fun l => l.Code = d.Language) = none := by
    rw [List.find?_eq_none]
    intro x hx
    simp [h x hx]
  rcases getLanguage_cases ds d.Language with ⟨c, hf, hg⟩ | ⟨l, _, hl, _⟩ | ⟨hf, _, hg⟩
  · simp only [ImportDomain, hg]
    refine ⟨⟨_, rfl, rfl, ?_⟩, rfl, rfl, rfl, rfl, rfl, rfl⟩
    intro h0
    rw [hf] at h0
    cases h0
  · rw [hnone] at hl
    cases hl
  · simp only [ImportDomain, hg]
    exact ⟨⟨_, rfl, rfl, fun _ => rfl⟩, rfl, rfl, rfl, rfl, rfl, rfl⟩

/-- C8, the kind of the error: in a store that has only the language "fr", importing
a domain declared in "de" fails with the error `errors.New("Language 'de' does
not exist in database")`, on which the test `err == sql.ErrNoRows` is false. -/
theorem ImportDomain_missing_language_not_ErrNoRows :
    (∀ x ∈ (DataStore.New emptyDB).db.language, x.Code ≠ germanMessages.Language) ∧
    (ImportDomain (DataStore.New emptyDB) germanMessages).1
      = some (Error.New "Language \x27de\x27 does not exist in database") ∧
    ¬ ∃ e, (ImportDomain (DataStore.New emptyDB) germanMessages).1 = some e ∧
      e.isNotFound = true := by
  refine ⟨by decide, by decide, ?_⟩
  rintro ⟨e, he, hn⟩
  have h1 : (ImportDomain (DataStore.New emptyDB) germanMessages).1
      = some (Error.New "Language \x27de\x27 does not exist in database") := by decide
  rw [h1] at he
  cases he
  cases hn

/-! ### Domain scoping -/

theorem domainAgrees_cons (cache : List (String × Int)) (rows : List DomainRow)
    (name : String) (id : Int)
    (hA : ∀ n v, cache.lookup n = some v → (⟨v, n⟩ : DomainRow) ∈ rows)
    (hin : (⟨id, name⟩ : DomainRow) ∈ rows) :
    ∀ n v, ((name, id) :: cache).lookup n = some v → (⟨v, n⟩ : DomainRow) ∈ rows := by
  intro n v hk
  simp only [List.lookup_cons] at hk
  split at hk
  · next hkeq =>
    simp only [beq_iff_eq] at hkeq
    subst hkeq
    simp only [Option.some.injEq] at hk
    subst hk
    exact hin
  · exact hA n v hk

theorem createOrGetDomain_row (ds : DataStore) (name : String)
    (hD : ds.DomainInv) (hf : ds.db.faults = []) :
    ∃ id ds2, createOrGetDomain ds name = ((id, none), ds2) ∧
      (⟨id, name⟩ : DomainRow) ∈ ds2.db.domain ∧ ds2.DomainInv ∧
      (∀ r ∈ ds.db.domain, r ∈ ds2.db.domain) := by
  obtain ⟨hSI, hDI, hDU, hDA⟩ := hD
  have hp1 : ds.db.fault = none := DB.fault_of_no_faults _ hf
  have hp2 : ds.pop.db.fault = none := by
    simp [DB.fault, DataStore.pop, DB.pop, hf]
  rcases createOrGetDomain_cases ds name with
    ⟨id, hc, h⟩ | ⟨c, _, hfa, _⟩ | ⟨r, hc, _, hfind, h⟩ | ⟨c, _, _, _, hfa, _⟩ |
      ⟨hc, _, hfind, _, h⟩
  · exact ⟨id, ds, h, hDA _ _ hc, ⟨hSI, hDI, hDU, hDA⟩, fun r hr => hr⟩
  · rw [hp1] at hfa
    cases hfa
  · have hmem := List.mem_of_find?_eq_some hfind
    have hp := List.find?_some hfind
    simp only [decide_eq_true_eq] at hp
    have hrow : (⟨r.id, name⟩ : DomainRow) = r := by
      cases r
      simp_all
    have hin : (⟨r.id, name⟩ : DomainRow) ∈ ds.db.domain := hrow ▸ hmem
    refine ⟨r.id, _, h, hin, ⟨hSI, hDI, hDU, ?_⟩, fun r hr => hr⟩
    exact domainAgrees_cons _ _ _ _ hDA hin
  · rw [hp2] at hfa
    cases hfa
  · have hno := List.find?_eq_none.mp hfind
    simp only [decide_eq_true_eq] at hno
    refine ⟨_, _, h, List.mem_append_right _ (List.mem_singleton.mpr rfl),
      ⟨hSI, ?_, ?_, ?_⟩, fun r hr => List.mem_append_left _ hr⟩
    · show (List.map (fun r : DomainRow => r.id) (ds.db.domain ++ _)).Nodup
      rw [List.map_append, List.nodup_append]
      refine ⟨hDI, by simp, ?_⟩
      intro k hk hk2
      simp only [List.map_cons, List.map_nil, List.mem_singleton] at hk2
      subst hk2
      exact nextRowId_not_mem _ hk
    · show (List.map (fun r : DomainRow => r.name) (ds.db.domain ++ _)).Nodup
      rw [List.map_append, List.nodup_append]
      refine ⟨hDU, by simp, ?_⟩
      intro k hk hk2
      simp only [List.map_cons, List.map_nil, List.mem_singleton] at hk2
      subst hk2
      obtain ⟨x, hx, hxn⟩ := List.mem_map.mp hk
      exact hno x hx hxn
    · intro n v hk
      exact List.mem_append_left _ (hDA n v hk)

theorem importTranslation_stringIds (l : Language) (domId : Int) (ds : DataStore)
    (t : Translation) (hInv : ds.Inv) (hSI : ds.db.StringIds) :
    (importTranslation l domId ds t).2.db.StringIds := by
  rcases hstep : importTranslation l domId ds t with ⟨e, ds1⟩
  obtain ⟨-, -, -, -, hS, -, -⟩ := importTranslation_spec l domId ds t hInv e ds1 hstep
  unfold DB.StringIds
  rcases hS with h1 | ⟨_, h1⟩
  · rw [h1]
    exact hSI
  · rw [h1, List.map_append, List.nodup_append]
    refine ⟨hSI, by simp, ?_⟩
    intro k hk hk2
    simp only [List.map_cons, List.map_nil, List.mem_singleton] at hk2
    subst hk2
    exact nextRowId_not_mem _ hk

theorem importTranslations_stringIds (l : Language) (domId : Int) (ts : List Translation) :
    ∀ ds : DataStore, ds.Inv → ds.db.StringIds →
      (importTranslations l domId ds ts).2.db.StringIds := by
  induction ts with
  | nil =>
    intro ds _ h
    exact h
  | cons t ts ih =>
    intro ds hInv hSI
    have h1 := importTranslation_stringIds l domId ds t hInv hSI
    rcases hstep : importTranslation l domId ds t with ⟨e, ds1⟩
    obtain ⟨hI, -⟩ := importTranslation_spec l domId ds t hInv e ds1 hstep
    rw [hstep] at h1
    simp only [importTranslations, hstep]
    cases e with
    | some e => exact h1
    | none => exact ih ds1 hI h1

theorem outcome_other (T T1 : List TranslationRow) (sid lang : Int) (c : String)
    (h : UpsertOutcome T T1 sid lang c) :
    ∀ x ∈ T, x.string_id ≠ sid → x ∈ T1 := by
  intro x hx hne
  rcases h with ⟨r0, _, h3, _, h5⟩ | ⟨_, h5⟩
  · subst h5
    refine List.mem_map.mpr ⟨x, hx, ?_⟩
    have : x ≠ r0 := fun hxr => hne (hxr ▸ h3)
    simp [this]
  · subst h5
    exact List.mem_append_left _ hx

theorem importTranslations_other (l : Language) (domId : Int) (ts : List Translation) :
    ∀ ds : DataStore, ds.Inv → ds.db.StringIds → ds.db.faults = [] →
      ∀ x ∈ ds.db.translation, ∀ sr ∈ ds.db.string, sr.id = x.string_id →
        sr.domain_id ≠ domId → x ∈ (importTranslations l domId ds ts).2.db.translation := by
  induction ts with
  | nil =>
    intro ds _ _ _ x hx _ _ _ _
    exact hx
  | cons t ts ih =>
    intro ds hInv hSI hf x hx sr hsr hid hdom
    have hSI1 := importTranslation_stringIds l domId ds t hInv hSI
    obtain ⟨ds1, sid, hstep, hI, hf1, -, -, -, hsub, hmem, -, hout⟩ :=
      importTranslation_ok l domId ds t hInv hf
    rw [hstep] at hSI1
    simp only [importTranslations, hstep]
    have hne : x.string_id ≠ sid := by
      intro hxs
      have := List.inj_on_of_nodup_map hSI1 (hsub sr hsr) hmem (by simp [hid, hxs])
      rw [this] at hdom
      exact hdom rfl
    exact ih ds1 hI hSI1 hf1 x (outcome_other _ _ _ _ _ hout x hx hne) sr (hsub sr hsr) hid hdom

theorem ImportDomain_summary (ds : DataStore) (d : Domain)
    (hInv : ds.Inv) (hD : ds.DomainInv) (hf : ds.db.faults = [])
    (hl : ∃ x ∈ ds.db.language, x.Code = d.Language) :
    ∃ l domId, l ∈ ds.db.language ∧ l.Code = d.Language ∧
      (ImportDomain ds d).1 = none ∧
      (ImportDomain ds d).2.Inv ∧ (ImportDomain ds d).2.DomainInv ∧
      (ImportDomain ds d).2.db.faults = [] ∧
      (ImportDomain ds d).2.db.language = ds.db.language ∧
      (⟨domId, d.Name⟩ : DomainRow) ∈ (ImportDomain ds d).2.db.domain ∧
      (∀ r ∈ ds.db.domain, r ∈ (ImportDomain ds d).2.db.domain) ∧
      (∀ s ∈ ds.db.string, s ∈ (ImportDomain ds d).2.db.string) ∧
      (∀ t ∈ d.Translations, Present (ImportDomain ds d).2 domId l.Id t) ∧
      (∀ x ∈ ds.db.translation, ∀ sr ∈ ds.db.string, sr.id = x.string_id →
        sr.domain_id ≠ domId → x ∈ (ImportDomain ds d).2.db.translation) ∧
      (∀ x ∈ (ImportDomain ds d).2.db.translation,
        (∀ t ∈ d.Translations, ¬ Hits (ImportDomain ds d).2.db.string domId l.Id t x) →
        x ∈ ds.db.translation) ∧
      (∀ x ∈ (ImportDomain ds d).2.db.translation,
        rowFold (ImportDomain ds d).2.db.string domId l.Id d.Translations x = x) := by
  obtain ⟨l, hfind⟩ := find_language _ _ hl
  have hlmem := List.mem_of_find?_eq_some hfind
  have hlcode := List.find?_some hfind
  simp only [decide_eq_true_eq] at hlcode
  obtain ⟨-, hrun⟩ := ImportDomain_eq_loop ds d l hf hfind
  obtain ⟨f1, f2, f3, f4, hnf⟩ := createOrGetDomain_frame ds d.Name
  obtain ⟨domId, ds2, hc, hrow, hD2, hdsub⟩ := createOrGetDomain_row ds d.Name hD hf
  rw [hc] at hrun f1 f2 f3 f4 hnf
  simp only at hrun f1 f2 f3 f4
  have hI2 : ds2.Inv := DataStore.Inv_of_eq ds ds2 f1 f2 f3 hInv
  have hf2 : ds2.db.faults = [] := (hnf hf).2
  obtain ⟨hpe, hpf⟩ := importTranslations_no_faults l domId d.Translations ds2 hI2 hf2
  obtain ⟨hpI, hpL, hpD, hpC⟩ := importTranslations_inv l domId d.Translations ds2 hI2
  have hpP := importTranslations_present l domId d.Translations ds2 hI2 hf2
  have hfix := importTranslations_fixed l domId d.Translations ds2 hI2 hf2
  have hfr := importTranslations_frame l domId d.Translations ds2 hI2 hf2
  have hmono := importTranslations_mono l domId d.Translations ds2 hI2 hf2
  have hSI := importTranslations_stringIds l domId d.Translations ds2 hI2 hD2.1
  have hoth := importTranslations_other l domId d.Translations ds2 hI2 hD2.1 hf2
  rw [← hrun] at hpe hpf hpI hpL hpD hpC hpP hfix hfr hmono hSI hoth
  refine ⟨l, domId, hlmem, hlcode, hpe, hpI, ⟨hSI, ?_, ?_, ?_⟩, hpf, hpL.trans f4, ?_, ?_, ?_,
    hpP, ?_, ?_, hfix⟩
  · unfold DB.DomainIds
    rw [hpD]
    exact hD2.2.1
  · unfold DB.DomainUnique
    rw [hpD]
    exact hD2.2.2.1
  · intro n v hk
    rw [hpC] at hk
    rw [hpD]
    exact hD2.2.2.2 n v hk
  · rw [hpD]
    exact hrow
  · intro r hr
    rw [hpD]
    exact hdsub r hr
  · intro s hs
    exact hmono.1 s (f1 ▸ hs)
  · intro x hx sr hsr hid hdom
    exact hoth x (f2 ▸ hx) sr (f1 ▸ hsr) hid hdom
  · intro x hx hno
    exact f2 ▸ hfr x hx hno

theorem rowFold_keys (strs : List StringRow) (domId lang : Int) (ts : List Translation) :
    ∀ x : TranslationRow,
      (rowFold strs domId lang ts x).id = x.id ∧
      (rowFold strs domId lang ts x).string_id = x.string_id ∧
      (rowFold strs domId lang ts x).language_id = x.language_id := by
  induction ts with
  | nil => intro x; exact ⟨rfl, rfl, rfl⟩
  | cons t ts ih =>
    intro x
    simp only [rowFold, List.foldl_cons]
    have h := ih (rowAfter strs domId lang x t)
    simp only [rowFold] at h
    by_cases hh : Hits strs domId lang t x
    · simp only [rowAfter, hh, if_true] at h ⊢
      exact h
    · simp only [rowAfter, hh, if_false] at h ⊢
      exact h

theorem rowFold_last (strs : List StringRow) (domId lang : Int)
    (pre : List Translation) (t : Translation) (post : List Translation) (x : TranslationRow)
    (ht : Hits strs domId lang t x)
    (hpost : ∀ t1 ∈ post, ¬ Hits strs domId lang t1 x) :
    (rowFold strs domId lang (pre ++ t :: post) x).content = t.Content := by
  obtain ⟨-, k2, k3⟩ := rowFold_keys strs domId lang pre x
  have hty : Hits strs domId lang t (rowFold strs domId lang pre x) := by
    unfold Hits at ht ⊢
    rw [k2, k3]
    exact ht
  have e1 : rowFold strs domId lang (pre ++ t :: post) x
      = rowFold strs domId lang post
          { rowFold strs domId lang pre x with content := t.Content } := by
    simp only [rowFold, List.foldl_append, List.foldl_cons]
    have : rowAfter strs domId lang (List.foldl (rowAfter strs domId lang) x pre) t
        = { List.foldl (rowAfter strs domId lang) x pre with content := t.Content } := by
      simp only [rowFold] at hty
      simp [rowAfter, hty]
    rw [this]
  rw [e1, rowFold_nohit]
  intro t1 ht1 hh
  apply hpost t1 ht1
  unfold Hits at hh ⊢
  simp only at hh
  rw [k2, k3] at hh
  exact hh

/-- C9: domain scoping. Take a DataStore whose store satisfies its key
constraints and whose caches agree with it, no statement failing, two domain
values `dA` and `dB` with different names that both contain a string named
`s`, and a later domain value `dA2` for the name of `dA` whose last entry for
`s` is `t`; all three languages are registered. After importing `dA` and then
`dB` the store has a domain row for each name, with different ids, and two
string rows named `s` with different ids, one in each domain; a translation
row of the string of `dB` exists. Importing `dA2` afterwards leaves the
translation rows of the string in `dB` exactly as they were, while the string
in `dA` has a translation row with the content of `t`. -/
theorem domain_scoping (ds : DataStore) (dA dB dA2 : Domain) (s : String)
    (pre : List Translation) (t : Translation) (post : List Translation)
    (hInv : ds.Inv) (hD : ds.DomainInv) (hf : ds.db.faults = [])
    (hne : dA.Name ≠ dB.Name) (hA2 : dA2.Name = dA.Name)
    (hlA : ∃ x ∈ ds.db.language, x.Code = dA.Language)
    (hlB : ∃ x ∈ ds.db.language, x.Code = dB.Language)
    (hlA2 : ∃ x ∈ ds.db.language, x.Code = dA2.Language)
    (hsA : ∃ u ∈ dA.Translations, u.Name = s)
    (hsB : ∃ u ∈ dB.Translations, u.Name = s)
    (hd2 : dA2.Translations = pre ++ t :: post) (htn : t.Name = s)
    (hpost : ∀ u ∈ post, u.Name ≠ s) :
    ∃ idA idB sidA sidB,
      (⟨idA, dA.Name⟩ : DomainRow) ∈ (ImportDomain (ImportDomain ds dA).2 dB).2.db.domain ∧
      (⟨idB, dB.Name⟩ : DomainRow) ∈ (ImportDomain (ImportDomain ds dA).2 dB).2.db.domain ∧
      idA ≠ idB ∧
      (⟨sidA, s, idA⟩ : StringRow) ∈ (ImportDomain (ImportDomain ds dA).2 dB).2.db.string ∧
      (⟨sidB, s, idB⟩ : StringRow) ∈ (ImportDomain (ImportDomain ds dA).2 dB).2.db.string ∧
      sidA ≠ sidB ∧
      (∃ x ∈ (ImportDomain (ImportDomain ds dA).2 dB).2.db.translation, x.string_id = sidB) ∧
      (∀ x : TranslationRow, x.string_id = sidB →
        (x ∈ (ImportDomain (ImportDomain (ImportDomain ds dA).2 dB).2 dA2).2.db.translation ↔
          x ∈ (ImportDomain (ImportDomain ds dA).2 dB).2.db.translation)) ∧
      (∃ x ∈ (ImportDomain (ImportDomain (ImportDomain ds dA).2 dB).2 dA2).2.db.translation,
        x.string_id = sidA ∧ x.content = t.Content) := by
  obtain ⟨lA, idA, -, -, -, hI1, hD1, hf1, hL1, hrowA, -, -, hPA, -, -, -⟩ :=
    ImportDomain_summary ds dA hInv hD hf hlA
  obtain ⟨lB, idB, -, -, -, hI2, hD2, hf2, hL2, hrowB, hdsub2, hssub2, hPB, -, -, -⟩ :=
    ImportDomain_summary (ImportDomain ds dA).2 dB hI1 hD1 hf1 (by rw [hL1]; exact hlB)
  obtain ⟨lA2, idA2, -, -, -, hI3, hD3, -, -, hrowA2, hdsub3, hssub3, hPA2, hoth3, hfr3, hfix3⟩ :=
    ImportDomain_summary (ImportDomain (ImportDomain ds dA).2 dB).2 dA2 hI2 hD2 hf2
      (by rw [hL2, hL1]; exact hlA2)
  obtain ⟨uA, huA, hnA⟩ := hsA
  obtain ⟨uB, huB, hnB⟩ := hsB
  obtain ⟨sidA, hsidA, -⟩ := hPA uA huA
  obtain ⟨sidB, hsidB, rB, hrB, hrB1, -⟩ := hPB uB huB
  rw [hnA] at hsidA
  rw [hnB] at hsidB
  have hsidA2 := hssub2 _ hsidA
  have hrowA' := hdsub2 _ hrowA
  have hidne : idA ≠ idB := by
    intro h
    have := List.inj_on_of_nodup_map hD2.2.1 hrowA' hrowB (by simp [h])
    simp only [DomainRow.mk.injEq] at this
    exact hne this.2
  have hidA2 : idA2 = idA := by
    have := List.inj_on_of_nodup_map hD3.2.2.1 hrowA2 (hdsub3 _ hrowA') (by simp [hA2])
    simp only [DomainRow.mk.injEq] at this
    exact this.1
  subst hidA2
  have hsidne : sidA ≠ sidB := by
    intro h
    have := List.inj_on_of_nodup_map hD2.1 hsidA2 hsidB (by simp [h])
    simp only [StringRow.mk.injEq] at this
    exact hidne this.2.2
  refine ⟨idA2, idB, sidA, sidB, hrowA', hrowB, hidne, hsidA2, hsidB, hsidne,
    ⟨rB, hrB, hrB1⟩, ?_, ?_⟩
  · intro x hx
    constructor
    · intro hx3
      apply hfr3 x hx3
      intro u _ hh
      have h1 : (⟨sidB, u.Name, idA2⟩ : StringRow)
          ∈ (ImportDomain (ImportDomain (ImportDomain ds dA).2 dB).2 dA2).2.db.string := by
        have := hh.1
        rw [hx] at this
        exact this
      have := List.inj_on_of_nodup_map hD3.1 h1 (hssub3 _ hsidB) (by simp)
      simp only [StringRow.mk.injEq] at this
      exact hidne this.2.2
    · intro hx2
      exact hoth3 x hx2 _ hsidB hx.symm (fun h => hidne h.symm)
  · have htmem : t ∈ dA2.Translations := by
      rw [hd2]
      simp
    obtain ⟨sid, hsid, r, hr, hr1, hr2⟩ := hPA2 t htmem
    rw [htn] at hsid
    have hsideq : sid = sidA := by
      have := List.inj_on_of_nodup_map hI3.2.2.1 hsid (hssub3 _ hsidA2) (by simp [StringRow.key])
      simp only [StringRow.mk.injEq] at this
      exact this.1
    subst hsideq
    refine ⟨r, hr, hr1, ?_⟩
    have hfixr := hfix3 r hr
    rw [hd2] at hfixr
    rw [← hfixr]
    apply rowFold_last
    · refine ⟨?_, hr2⟩
      rw [hr1, htn]
      exact hsid
    · intro u hu hh
      have h1 := hh.1
      rw [hr1] at h1
      have := List.inj_on_of_nodup_map hD3.1 h1 hsid (by simp)
      simp only [StringRow.mk.injEq] at this
      exact hpost u hu this.2.1

/-! ### The domain cache and the handler statuses, path by path -/

theorem createOrGetDomain_hit (ds : DataStore) (name : String) (id : Int)
    (hc : ds.domainCache.lookup name = some id) :
    createOrGetDomain ds name = ((id, none), ds) := by
  rcases createOrGetDomain_cases ds name with
    ⟨id1, hc1, h⟩ | ⟨c, hc1, _, _⟩ | ⟨r, hc1, _, _, _⟩ | ⟨c, hc1, _, _, _, _⟩ |
      ⟨hc1, _, _, _, _⟩
  · rw [hc] at hc1
    cases hc1
    exact h
  all_goals (rw [hc] at hc1; cases hc1)

theorem createOrGetDomain_lookup_writes_cache (ds : DataStore) (name : String) (r : DomainRow)
    (hc : ds.domainCache.lookup name = none) (hf : ds.db.fault = none)
    (hfind : ds.db.domain.find? (fun r => r.name = name) = some r) :
    (createOrGetDomain ds name).1 = (r.id, none) ∧
    (createOrGetDomain ds name).2.domainCache.lookup name = some r.id ∧
    createOrGetDomain (createOrGetDomain ds name).2 name
      = ((r.id, none), (createOrGetDomain ds name).2) := by
  rcases createOrGetDomain_cases ds name with
    ⟨id1, hc1, _⟩ | ⟨c, _, hf1, _⟩ | ⟨r1, _, _, hfind1, h⟩ | ⟨c, _, _, hfind1, _, _⟩ |
      ⟨_, _, hfind1, _, _⟩
  · rw [hc] at hc1
    cases hc1
  · rw [hf] at hf1
    cases hf1
  · rw [hfind] at hfind1
    cases hfind1
    have hl : (createOrGetDomain ds name).2.domainCache.lookup name = some r.id := by
      rw [h]
      simp [List.lookup_cons]
    exact ⟨by rw [h], hl, createOrGetDomain_hit _ name r.id hl⟩
  · rw [hfind] at hfind1
    cases hfind1
  · rw [hfind] at hfind1
    cases hfind1

theorem createOrGetDomain_creation_leaves_cache (ds : DataStore) (name : String)
    (hc : ds.domainCache.lookup name = none) (hf : ds.db.faults = [])
    (hfind : ds.db.domain.find? (fun r => r.name = name) = none) :
    (createOrGetDomain ds name).1 = (nextRowId (ds.db.domain.map (fun r => r.id)), none) ∧
    (createOrGetDomain ds name).2.domainCache.lookup name = none := by
  have hp1 : ds.db.fault = none := DB.fault_of_no_faults _ hf
  have hp2 : ds.pop.db.fault = none := by
    simp [DB.fault, DataStore.pop, DB.pop, hf]
  rcases createOrGetDomain_cases ds name with
    ⟨id1, hc1, _⟩ | ⟨c, _, hf1, _⟩ | ⟨r1, _, _, hfind1, _⟩ | ⟨c, _, _, _, hf2, _⟩ |
      ⟨_, _, _, _, h⟩
  · rw [hc] at hc1
    cases hc1
  · rw [hp1] at hf1
    cases hf1
  · rw [hfind] at hfind1
    cases hfind1
  · rw [hp2] at hf2
    cases hf2
  · rw [h]
    exact ⟨rfl, hc⟩

theorem createOrUpdateTranslationHandler_status (dName : String) (e : Error) :
    (createOrUpdateTranslationHandler freshWriter dName none (some e)).1.status
      = some (if e.isNotFound then StatusNotFound else StatusInternalServerError) := by
  cases e with
  | ErrNoRows => rfl
  | New msg => rfl
  | Store c => rfl

/-! ### The hypotheses hold in every state the program reaches -/

theorem New_inv (db : DB) (h1 : db.TranslationIds) (h2 : db.TranslationUnique)
    (h3 : db.StringUnique) (h4 : db.StringIds) (h5 : db.DomainIds) (h6 : db.DomainUnique) :
    (DataStore.New db).Inv ∧ (DataStore.New db).DomainInv := by
  refine ⟨⟨h1, h2, h3, ?_⟩, ⟨h4, h5, h6, ?_⟩⟩
  · intro k v h
    cases h
  · intro k v h
    cases h

theorem createOrGetDomain_domainInv (ds : DataStore) (name : String) (hD : ds.DomainInv) :
    (createOrGetDomain ds name).2.DomainInv := by
  obtain ⟨hSI, hDI, hDU, hDA⟩ := hD
  rcases createOrGetDomain_cases ds name with
    ⟨id, hc, h⟩ | ⟨c, _, _, h⟩ | ⟨r, hc, _, hfind, h⟩ | ⟨c, _, _, _, _, h⟩ |
      ⟨hc, _, hfind, _, h⟩
  · rw [h]
    exact ⟨hSI, hDI, hDU, hDA⟩
  · rw [h]
    exact ⟨hSI, hDI, hDU, hDA⟩
  · rw [h]
    have hmem := List.mem_of_find?_eq_some hfind
    have hp := List.find?_some hfind
    simp only [decide_eq_true_eq] at hp
    have hrow : (⟨r.id, name⟩ : DomainRow) = r := by
      cases r
      simp_all
    have hin : (⟨r.id, name⟩ : DomainRow) ∈ ds.db.domain := hrow ▸ hmem
    exact ⟨hSI, hDI, hDU, domainAgrees_cons _ _ _ _ hDA hin⟩
  · rw [h]
    exact ⟨hSI, hDI, hDU, hDA⟩
  · rw [h]
    have hno := List.find?_eq_none.mp hfind
    simp only [decide_eq_true_eq] at hno
    refine ⟨hSI, ?_, ?_, ?_⟩
    · show (List.map (fun r : DomainRow => r.id) (ds.db.domain ++ _)).Nodup
      rw [List.map_append, List.nodup_append]
      refine ⟨hDI, by simp, ?_⟩
      intro k hk hk2
      simp only [List.map_cons, List.map_nil, List.mem_singleton] at hk2
      subst hk2
      exact nextRowId_not_mem _ hk
    · show (List.map (fun r : DomainRow => r.name) (ds.db.domain ++ _)).Nodup
      rw [List.map_append, List.nodup_append]
      refine ⟨hDU, by simp, ?_⟩
      intro k hk hk2
      simp only [List.map_cons, List.map_nil, List.mem_singleton] at hk2
      subst hk2
      obtain ⟨x, hx, hxn⟩ := List.mem_map.mp hk
      exact hno x hx hxn
    · intro n v hk
      exact List.mem_append_left _ (hDA n v hk)

theorem ImportDomain_domainInv (ds : DataStore) (d : Domain) (h : ds.Inv) (hD : ds.DomainInv) :
    (ImportDomain ds d).2.DomainInv := by
  have hpop : ds.pop.Inv := DataStore.Inv_of_eq ds ds.pop rfl rfl rfl h
  have hDpop : ds.pop.DomainInv := hD
  unfold ImportDomain
  rcases hg : getLanguage ds d.Language with ⟨⟨l, e⟩, ds1⟩
  have hs1 : ds1 = ds.pop := by
    have := getLanguage_state ds d.Language
    rw [hg] at this
    exact this
  subst hs1
  cases e with
  | some e => exact hDpop
  | none =>
    simp only
    have hD2 := createOrGetDomain_domainInv ds.pop d.Name hDpop
    obtain ⟨f1, f2, f3, -, -⟩ := createOrGetDomain_frame ds.pop d.Name
    rcases hc : createOrGetDomain ds.pop d.Name with ⟨⟨domId, e2⟩, ds2⟩
    rw [hc] at f1 f2 f3 hD2
    have hI2 : ds2.Inv := DataStore.Inv_of_eq ds.pop ds2 f1 f2 f3 hpop
    cases e2 with
    | some e2 => exact hD2
    | none =>
      simp only
      obtain ⟨-, -, hpD, hpC⟩ := importTranslations_inv l domId d.Translations ds2 hI2
      have hSI := importTranslations_stringIds l domId d.Translations ds2 hI2 hD2.1
      refine ⟨hSI, ?_, ?_, ?_⟩
      · unfold DB.DomainIds
        rw [hpD]
        exact hD2.2.1
      · unfold DB.DomainUnique
        rw [hpD]
        exact hD2.2.2.1
      · intro n v hk
        rw [hpC] at hk
        rw [hpD]
        exact hD2.2.2.2 n v hk

/-! ### Instances of the theorems -/

theorem seededStore_inv : seededStore.Inv := by
  refine ⟨by decide, by decide, by decide, ?_⟩
  intro k v h
  simp only [seededStore, List.lookup] at h
  split at h
  · next hk =>
    simp only [beq_iff_eq] at hk
    subst hk
    simp only [Option.some.injEq] at h
    subst h
    decide
  · cases h

theorem freshStore_inv : (DataStore.New emptyDB).Inv := by
  refine ⟨by decide, by decide, by decide, ?_⟩
  intro k v h
  cases h

theorem freshStore_domainInv : (DataStore.New emptyDB).DomainInv := by
  refine ⟨by decide, by decide, by decide, ?_⟩
  intro k v h
  cases h

/-- Instance of C1 at `seededStore` and `messagesFr`. -/
theorem ImportDomain_idempotent_witness :
    seededStore.Inv ∧ seededStore.db.faults = [] ∧
    (∃ x ∈ seededStore.db.language, x.Code = messagesFr.Language) ∧
    ((ImportDomain seededStore messagesFr).1 = none ∧
      (ImportDomain (ImportDomain seededStore messagesFr).2 messagesFr).1 = none ∧
      (ImportDomain (ImportDomain seededStore messagesFr).2 messagesFr).2.db.translation
        = (ImportDomain seededStore messagesFr).2.db.translation) :=
  ⟨seededStore_inv, rfl, ⟨french, by decide, rfl⟩,
    ImportDomain_idempotent seededStore messagesFr seededStore_inv rfl
      ⟨french, by decide, rfl⟩⟩

/-- Instance of C3 at `seededStore` and `messagesFr`. -/
theorem ImportDomain_preserves_translation_unique_witness :
    seededStore.db.TranslationIds ∧ seededStore.db.TranslationUnique ∧
    seededStore.db.StringUnique ∧ seededStore.StringCacheAgrees ∧
    (ImportDomain seededStore messagesFr).2.db.TranslationUnique :=
  ⟨seededStore_inv.1, seededStore_inv.2.1, seededStore_inv.2.2.1, seededStore_inv.2.2.2,
    ImportDomain_preserves_translation_unique seededStore messagesFr seededStore_inv.1
      seededStore_inv.2.1 seededStore_inv.2.2.1 seededStore_inv.2.2.2⟩

/-- Instance of C8 at `seededStore` and `germanMessages`. -/
theorem ImportDomain_missing_language_witness :
    (∀ x ∈ seededStore.db.language, x.Code ≠ germanMessages.Language) ∧
    ((∃ e, (ImportDomain seededStore germanMessages).1 = some e ∧
        e.isNotFound = false ∧
        (seededStore.db.fault = none →
          e = Error.New (languageMissing germanMessages.Language))) ∧
      (ImportDomain seededStore germanMessages).2.db.language
        = seededStore.db.language ∧
      (ImportDomain seededStore germanMessages).2.db.domain
        = seededStore.db.domain ∧
      (ImportDomain seededStore germanMessages).2.db.string
        = seededStore.db.string ∧
      (ImportDomain seededStore germanMessages).2.db.translation
        = seededStore.db.translation ∧
      (ImportDomain seededStore germanMessages).2.domainCache
        = seededStore.domainCache ∧
      (ImportDomain seededStore germanMessages).2.stringCache
        = seededStore.stringCache) :=
  ⟨by decide, ImportDomain_missing_language seededStore germanMessages (by decide)⟩

/-- Instance of C2 at `seededStore` and `messagesFr`, for the entry "bye"
(a new string) between the two entries for "hello". -/
theorem ImportDomain_upsert_decision_witness :
    seededStore.Inv ∧ seededStore.db.faults = [] ∧
    seededStore.db.language.find? (fun x => x.Code = messagesFr.Language) = some french ∧
    messagesFr.Translations =
      [entry "hello" "Bonjour"] ++ entry "bye" "Au revoir" :: [entry "hello" "Bonjour !"] ∧
    (∃ domId before after sid,
      (createOrGetDomain seededStore messagesFr.Name).1 = (domId, none) ∧
      importTranslations french domId (createOrGetDomain seededStore messagesFr.Name).2
        [entry "hello" "Bonjour"] = (none, before) ∧
      importTranslation french domId before (entry "bye" "Au revoir") = (none, after) ∧
      ImportDomain seededStore messagesFr =
        importTranslations french domId after [entry "hello" "Bonjour !"] ∧
      (⟨sid, (entry "bye" "Au revoir").Name, domId⟩ : StringRow) ∈ after.db.string ∧
      (∀ s ∈ before.db.string, s.name = (entry "bye" "Au revoir").Name → s.domain_id = domId →
        s.id = sid) ∧
      (∀ r ∈ before.db.translation, r.string_id = sid → r.language_id = french.Id →
        after.db.translation =
            before.db.translation.map
              (fun x => if x = r then { r with content := (entry "bye" "Au revoir").Content }
                else x) ∧
          after.db.translation.length = before.db.translation.length) ∧
      ((∀ r ∈ before.db.translation, ¬ (r.string_id = sid ∧ r.language_id = french.Id)) →
        after.db.translation = before.db.translation ++
          [⟨nextRowId (before.db.translation.map (fun r => r.id)), sid, french.Id,
            (entry "bye" "Au revoir").Content⟩])) :=
  ⟨seededStore_inv, rfl, by decide, rfl,
    ImportDomain_upsert_decision seededStore messagesFr french [entry "hello" "Bonjour"]
      (entry "bye" "Au revoir") [entry "hello" "Bonjour !"] seededStore_inv rfl (by decide) rfl⟩

/-- Instance of C9 at the fresh store: domains "A" and "B" with the string
"title", then "A" again with a new content. -/
theorem domain_scoping_witness :
    (DataStore.New emptyDB).Inv ∧ (DataStore.New emptyDB).DomainInv ∧
    (DataStore.New emptyDB).db.faults = [] ∧
    domainA.Name ≠ domainB.Name ∧ domainA2.Name = domainA.Name ∧
    (∃ x ∈ (DataStore.New emptyDB).db.language, x.Code = domainA.Language) ∧
    (∃ x ∈ (DataStore.New emptyDB).db.language, x.Code = domainB.Language) ∧
    (∃ x ∈ (DataStore.New emptyDB).db.language, x.Code = domainA2.Language) ∧
    (∃ u ∈ domainA.Translations, u.Name = "title") ∧
    (∃ u ∈ domainB.Translations, u.Name = "title") ∧
    domainA2.Translations = [] ++ entry "title" "Nouveau titre" :: [] ∧
    (entry "title" "Nouveau titre").Name = "title" ∧
    (∀ u ∈ ([] : List Translation), u.Name ≠ "title") ∧
    (∃ idA idB sidA sidB,
      (⟨idA, domainA.Name⟩ : DomainRow)
        ∈ (ImportDomain (ImportDomain (DataStore.New emptyDB) domainA).2 domainB).2.db.domain ∧
      (⟨idB, domainB.Name⟩ : DomainRow)
        ∈ (ImportDomain (ImportDomain (DataStore.New emptyDB) domainA).2 domainB).2.db.domain ∧
      idA ≠ idB ∧
      (⟨sidA, "title", idA⟩ : StringRow)
        ∈ (ImportDomain (ImportDomain (DataStore.New emptyDB) domainA).2 domainB).2.db.string ∧
      (⟨sidB, "title", idB⟩ : StringRow)
        ∈ (ImportDomain (ImportDomain (DataStore.New emptyDB) domainA).2 domainB).2.db.string ∧
      sidA ≠ sidB ∧
      (∃ x ∈ (ImportDomain (ImportDomain (DataStore.New emptyDB) domainA).2
          domainB).2.db.translation, x.string_id = sidB) ∧
      (∀ x : TranslationRow, x.string_id = sidB →
        (x ∈ (ImportDomain (ImportDomain (ImportDomain (DataStore.New emptyDB) domainA).2
              domainB).2 domainA2).2.db.translation ↔
          x ∈ (ImportDomain (ImportDomain (DataStore.New emptyDB) domainA).2
              domainB).2.db.translation)) ∧
      (∃ x ∈ (ImportDomain (ImportDomain (ImportDomain (DataStore.New emptyDB) domainA).2
            domainB).2 domainA2).2.db.translation,
        x.string_id = sidA ∧ x.content = (entry "title" "Nouveau titre").Content)) :=
  ⟨freshStore_inv, freshStore_domainInv, rfl, by decide, rfl,
    ⟨french, by decide, rfl⟩, ⟨french, by decide, rfl⟩, ⟨french, by decide, rfl⟩,
    ⟨entry "title" "Titre A", by decide, rfl⟩, ⟨entry "title" "Titre B", by decide, rfl⟩,
    rfl, rfl, by decide,
    domain_scoping (DataStore.New emptyDB) domainA domainB domainA2 "title" []
      (entry "title" "Nouveau titre") [] freshStore_inv freshStore_domainInv rfl (by decide) rfl
      ⟨french, by decide, rfl⟩ ⟨french, by decide, rfl⟩ ⟨french, by decide, rfl⟩
      ⟨entry "title" "Titre A", by decide, rfl⟩ ⟨entry "title" "Titre B", by decide, rfl⟩
      rfl rfl (by decide)⟩

end TranslationApi
